import Mathlib

/-!
Verification of the schema-to-type-model compiler of `crd-gen`
(`internal/openapi/parser.go` and the renderer's root filtering in
`cmd/generate-crd-api`).

Modelling conventions:
* `Schema` embeds the subset of `apiextensions/v1.JSONSchemaProps` that the
  compiler reads: `Type`, `Format`, `Description`, `Ref`, `Properties`,
  `Items` (a `*JSONSchemaPropsOrArray` whose `Schema` field may itself be
  nil, hence `Option (Option Schema)`), `AdditionalProperties`
  (a `*JSONSchemaPropsOrBool`, same shape) and `Enum` (raw JSON literals,
  kept as their JSON source text, e.g. `"\"Fixed\""`).
* Go maps become association lists; `map[x] = v` is a cons and lookup finds
  the most recent binding, matching overwrite semantics.  The compiler
  itself only ever iterates properties in sorted key order
  (`slices.Sorted(maps.Keys(..))`), modelled by sorting the association
  list by key.
* The md5 hex digest used by `getHash` and by the hash-suffixed name
  fallback is external library code (`crypto/md5`); it is abstracted as an
  explicit parameter `dig : String → String` applied to the canonical
  serialization, so every theorem is quantified over the digest and no
  proof can rely on properties of a mock hash.  Concrete evaluations
  instantiate it with the identity.
* Recursion over the schema tree is expressed with a fuel parameter that is
  an upper bound on the nesting depth; the public entry points instantiate
  the fuel with the schema's node count `Schema.size`, which always
  suffices (a child node has strictly smaller size).  Running out of fuel yields `none`, the same
  result as the one real partiality of the Go code, the nil-pointer panic
  on `prop.Items.Schema.Enum` (claim C10); the sufficiency theorem for C10
  shows fuel exhaustion is unreachable from the entry points.
* Character classification (`unicode.IsLetter`/`IsNumber`) and first-byte
  capitalization are modelled at ASCII fidelity, which covers every
  identifier the generator is specified over.
-/

/-! ## Character and string helpers (structural, kernel-reducible) -/

/-- Split a character list at every separator character (Go `strings.Split`
semantics: empty segments are kept, the result is never empty). -/
def splitOnChar (sep : Char) : List Char → List (List Char)
  | [] => [[]]
  | c :: cs =>
    let rest := splitOnChar sep cs
    if c = sep then [] :: rest
    else
      match rest with
      | [] => [[c]]
      | w :: ws => (c :: w) :: ws

/-- Go `strings.Split(s, ".")`. -/
def strSplitOnDot (s : String) : List String :=
  (splitOnChar '.' s.data).map String.mk

/-- Go `strings.Split(s, "/")`. -/
def strSplitOnSlash (s : String) : List String :=
  (splitOnChar '/' s.data).map String.mk

/-- Split a character list at every character satisfying `p`, keeping empty
segments. -/
def splitOnPred (p : Char → Bool) : List Char → List (List Char)
  | [] => [[]]
  | c :: cs =>
    let rest := splitOnPred p cs
    if p c then [] :: rest
    else
      match rest with
      | [] => [[c]]
      | w :: ws => (c :: w) :: ws

/-- Go `strings.FieldsFunc(s, p)`: maximal runs of characters not
satisfying `p`; equivalently, split at separators and drop empty
segments. -/
def fieldsFun (p : Char → Bool) (l : List Char) : List (List Char) :=
  (splitOnPred p l).filter (fun w => w ≠ [])

/-- Concatenate a list of strings (Go `strings.Join(ws, "")`). -/
def joinAll : List String → String
  | [] => ""
  | w :: ws => w ++ joinAll ws

/-- Comma-separated concatenation, used by the canonical serialization. -/
def joinComma : List String → String
  | [] => ""
  | [w] => w
  | w :: ws => w ++ "," ++ joinComma ws

/-- Byte-order comparison of strings (Go's `<` / `cmp.Less` on `string`;
UTF-8 byte order coincides with code-point order). -/
def strLeB (a b : String) : Bool :=
  strLeChars a.data b.data
where
  strLeChars : List Char → List Char → Bool
  | [], _ => true
  | _ :: _, [] => false
  | c :: cs, d :: ds => if c = d then strLeChars cs ds else decide (c.val < d.val)

/-- Go `strings.Contains(s, "]")`. -/
def containsRBracket (s : String) : Bool :=
  s.data.contains ']'

/-- Go `strings.Replace(s, "]", "]*", 1)`: insert `*` after the first `]`. -/
def replaceFirstRBracketAux : List Char → List Char
  | [] => []
  | c :: cs => if c = ']' then c :: '*' :: cs else c :: replaceFirstRBracketAux cs

/-- String wrapper for `replaceFirstRBracketAux`. -/
def replaceFirstRBracket (s : String) : String :=
  String.mk (replaceFirstRBracketAux s.data)

/-- Go `strings.ReplaceAll(s, "\"", "")`: drop every double quote. -/
def removeQuotes (s : String) : String :=
  String.mk (s.data.filter (fun c => c ≠ '"'))

/-- Go `strings.ToUpper(string(word[0])) + word[1:]` at ASCII fidelity:
upper-case the first character. -/
def capitalizeGo (w : String) : String :=
  match w.data with
  | [] => w
  | c :: cs => String.mk (c.toUpper :: cs)

/-- `ToCamelCase` from `parser.go`: split on every character that is
neither a letter nor a digit, capitalize each word, join. -/
def ToCamelCase (s : String) : String :=
  let words := (fieldsFun (fun c => !(c.isAlpha || c.isDigit)) s.data).map String.mk
  joinAll (words.map capitalizeGo)

/-- Last path segment of a `$ref` pointer (`parts[len(parts)-1]` after
splitting on `/`; a split result is never empty). -/
def lastSegment (r : String) : String :=
  (strSplitOnSlash r).getLastD ""

/-! ## The schema tree -/

/-- The subset of `JSONSchemaProps` read by the compiler.  `items` and
`addProps` model nullable pointer nodes whose inner `Schema` pointer may
itself be nil (`some none`). -/
inductive Schema : Type where
  | mk (typ format descr : String)
       (refv : Option String)
       (properties : List (String × Schema))
       (items : Option (Option Schema))
       (addProps : Option (Option Schema))
       (enum : List String) : Schema

/-- `Type` field accessor. -/
def Schema.typ : Schema → String
  | .mk t _ _ _ _ _ _ _ => t

/-- `Format` field accessor. -/
def Schema.format : Schema → String
  | .mk _ f _ _ _ _ _ _ => f

/-- `Description` field accessor. -/
def Schema.descr : Schema → String
  | .mk _ _ d _ _ _ _ _ => d

/-- `Ref` field accessor. -/
def Schema.refv : Schema → Option String
  | .mk _ _ _ r _ _ _ _ => r

/-- `Properties` field accessor. -/
def Schema.properties : Schema → List (String × Schema)
  | .mk _ _ _ _ p _ _ _ => p

/-- `Items` field accessor. -/
def Schema.items : Schema → Option (Option Schema)
  | .mk _ _ _ _ _ i _ _ => i

/-- `AdditionalProperties` field accessor. -/
def Schema.addProps : Schema → Option (Option Schema)
  | .mk _ _ _ _ _ _ a _ => a

/-- `Enum` field accessor. -/
def Schema.enum : Schema → List String
  | .mk _ _ _ _ _ _ _ e => e

mutual
/-- Node count of a schema tree, the fuel bound used by the entry points
(each child node has strictly smaller size). -/
def Schema.size : Schema → Nat
  | .mk _ _ _ _ props items addP _ =>
    1 + sizePropsList props + sizeNodeOpt items + sizeNodeOpt addP
/-- Total size of a property list. -/
def sizePropsList : List (String × Schema) → Nat
  | [] => 0
  | (_, s) :: rest => 1 + Schema.size s + sizePropsList rest
/-- Size of an optional pointer-to-schema node. -/
def sizeNodeOpt : Option (Option Schema) → Nat
  | some (some s) => 1 + Schema.size s
  | _ => 0
end

/-! ## Sorting properties by key -/

/-- Key order on property entries (`slices.Sorted` iterates map keys in
ascending byte order). -/
def keyLe (a b : String × Schema) : Prop := strLeB a.1 b.1 = true

instance : DecidableRel keyLe := fun _ _ => inferInstanceAs (Decidable (_ = true))

/-- Sort a property association list by key, the iteration order of
`for _, propName := range slices.Sorted(maps.Keys(schema.Properties))`. -/
def sortByKey (l : List (String × Schema)) : List (String × Schema) :=
  l.insertionSort keyLe

/-! ## The generated type model (`types.go`) -/

/-- One enum constant (`EnumDef`). -/
structure EnumDef where
  name : String
  value : String
deriving DecidableEq, Repr

/-- One struct field (`FieldDef`). -/
structure FieldDef where
  name : String
  typ : String
  jsonTag : String
  description : String
  enums : List EnumDef
  enumName : String
  enumType : String
deriving DecidableEq, Repr

/-- One generated struct (`StructDef`). -/
structure StructDef where
  name : String
  fields : List FieldDef
  description : String
  root : Bool
deriving DecidableEq, Repr

/-- Kind/list-kind pair recorded per resource (`CRDNames`). -/
structure CRDNames where
  kind : String
  list : String
deriving DecidableEq, Repr

/-- The naming/dedup registry: the `structHashes` and `structNames` maps on
`CustomResources`, shared across one whole batch. -/
structure Registry where
  structHashes : List (String × String)
  structNames : List String
deriving DecidableEq, Repr

/-- `r.structHashes[hash]` lookup. -/
def lookupHash (reg : Registry) (h : String) : Option String :=
  reg.structHashes.lookup h

/-- `r.structHashes[hash] = name`. -/
def addHash (reg : Registry) (h n : String) : Registry :=
  { reg with structHashes := (h, n) :: reg.structHashes }

/-- `_, ok := r.structNames[name]`. -/
def hasName (reg : Registry) (n : String) : Bool :=
  reg.structNames.contains n

/-- `r.structNames[name] = true`. -/
def addName (reg : Registry) (n : String) : Registry :=
  { reg with structNames := n :: reg.structNames }

/-- The empty registry a batch starts with. -/
def emptyRegistry : Registry := { structHashes := [], structNames := [] }

/-- One compiled resource (`CustomResource`).  In Go the root struct is
held in `Root`, not in the `Structs` map. -/
structure CustomResource where
  kind : String
  plural : String
  list : String
  group : String
  version : String
  root : Option StructDef
  structs : List (String × StructDef)
  imports : List String
deriving DecidableEq, Repr

/-- The batch result (`CustomResources`); `reg` bundles its two private
registry maps. -/
structure CustomResources where
  items : List CustomResource
  names : List CRDNames
  group : String
  version : String
  reg : Registry
deriving DecidableEq, Repr

/-- The metav1 import every resource starts with. -/
def metav1Import : String := "metav1 \"k8s.io/apimachinery/pkg/apis/meta/v1\""

/-- The apiextensions import added for untyped fallback fields. -/
def apiextImport : String := "apiextensionsv1 \"k8s.io/apiextensions-apiserver/pkg/apis/apiextensions/v1\""

/-- `cr.Imports[imp] = true` (set insertion). -/
def addImport (cr : CustomResource) (imp : String) : CustomResource :=
  if cr.imports.contains imp then cr else { cr with imports := imp :: cr.imports }

/-! ## `mapType` -/

/-- `mapType` from `parser.go`, with fuel for the `array`-items recursion. -/
def mapTypeF : Nat → Schema → String
  | 0, _ => ""
  | fuel + 1, prop =>
    if prop.typ = "" then
      match prop.refv with
      | some r => ToCamelCase (lastSegment r)
      | none => "any"
    else if prop.typ = "string" then
      if prop.format = "date-time" then "metav1.Time"
      else if prop.format = "byte" ∨ prop.format = "binary" then "[]byte"
      else "string"
    else if prop.typ = "integer" ∨ prop.typ = "number" then
      if prop.format = "int32" then "int32"
      else if prop.format = "int64" then "int64"
      else if prop.format = "float" then "float32"
      else if prop.format = "double" then "float64"
      else if prop.typ = "integer" then "int64"
      else "float64"
    else if prop.typ = "boolean" then "bool"
    else if prop.typ = "array" then
      match prop.items with
      | some (some s) => "[]" ++ mapTypeF fuel s
      | _ => "[]any"
    else if prop.typ = "object" then "map[string]any"
    else "any"

/-- `mapType` entry point; the node count strictly bounds the
items-nesting depth, so the fuel never runs out. -/
def mapType (s : Schema) : String := mapTypeF s.size s

/-! ## Canonical serialization and `getHash`

`getHash` is `hex(md5(json.Marshal(y)))`.  `json.Marshal` of a Go map
serializes entries in sorted key order, recursively; `encodeSchemaF` is
that canonical sorted-key serialization restricted to the modelled fields,
and the digest itself is the abstract parameter `dig`. -/

/-- Quote a string for the canonical serialization. -/
def quoteStr (s : String) : String := "\"" ++ s ++ "\""

/-- Serialize a list of enum literals (they are raw JSON already). -/
def encodeEnumList (l : List String) : String :=
  "[" ++ joinComma l ++ "]"

/-- Serialize an already-sorted property list, given a serializer for the
values. -/
def encodeEntriesWith (enc : Schema → String) (l : List (String × Schema)) : String :=
  "(" ++ joinComma (l.map (fun e => quoteStr e.1 ++ ":" ++ enc e.2)) ++ ")"

/-- Serialize an optional pointer-to-schema node. -/
def encodeOptNodeWith (enc : Schema → String) : Option (Option Schema) → String
  | none => "null"
  | some none => "(schema:null)"
  | some (some s) => "(schema:" ++ enc s ++ ")"

/-- Canonical sorted-key serialization of a schema node. -/
def encodeSchemaF : Nat → Schema → String
  | 0, _ => ""
  | fuel + 1, .mk typ fmt descr refv props items addP enum =>
    "(type:" ++ quoteStr typ
      ++ ",format:" ++ quoteStr fmt
      ++ ",description:" ++ quoteStr descr
      ++ ",ref:" ++ (match refv with | some r => quoteStr r | none => "null")
      ++ ",properties:" ++ encodeEntriesWith (encodeSchemaF fuel) (sortByKey props)
      ++ ",items:" ++ encodeOptNodeWith (encodeSchemaF fuel) items
      ++ ",additionalProperties:" ++ encodeOptNodeWith (encodeSchemaF fuel) addP
      ++ ",enum:" ++ encodeEnumList enum ++ ")"

/-- `getHash(prop.Properties)`: digest of the canonical serialization of a
property map. -/
def getHashProps (dig : String → String) (props : List (String × Schema)) : String :=
  dig (encodeEntriesWith (fun s => encodeSchemaF s.size s) (sortByKey props))

/-- `getHash(prop.Enum)`: digest of the serialized enum literal list. -/
def getHashEnum (dig : String → String) (enum : List String) : String :=
  dig (encodeEnumList enum)

/-! ## `newUniqFieldName` -/

/-- The hash-suffixed fallback `fieldName + "_" + hex(md5(path + "." +
fieldName))`; note the Go code returns it without reserving it in
`structNames`. -/
def fallbackName (dig : String → String) (fieldName path : String) : String :=
  fieldName ++ "_" ++ dig (path ++ "." ++ fieldName)

/-- The downward loop of `newUniqFieldName`: walk the path segments
innermost-first, prepending PascalCased segments to the accumulator, and
reserve the first free candidate. -/
def uniqPrefixLoop (reg : Registry) (fieldName : String) :
    List String → String → Option (String × Registry)
  | [], _ => none
  | seg :: rest, acc =>
    let acc2 := ToCamelCase seg ++ acc
    let name := acc2 ++ fieldName
    if hasName reg name then uniqPrefixLoop reg fieldName rest acc2
    else some (name, addName reg name)

/-- `newUniqFieldName` from `parser.go`. -/
def newUniqFieldName (dig : String → String) (kind : String) (reg : Registry)
    (fieldName : String) (root : Bool) (path : String) : String × Registry :=
  if root = false ∧ hasName reg fieldName = false then (fieldName, addName reg fieldName)
  else
    let kn := kind ++ fieldName
    if hasName reg kn = false then (kn, addName reg kn)
    else
      match uniqPrefixLoop reg fieldName (strSplitOnDot path).reverse "" with
      | some r => r
      | none => (fallbackName dig fieldName path, reg)

/-! ## Enum synthesis -/

/-- `generateEnum` from `parser.go`: one constant per literal, named
`fieldName + ToCamelCase(literal with quotes stripped)`. -/
def generateEnum (prop : Schema) (fieldName : String) : List EnumDef :=
  prop.enum.map (fun raw =>
    { name := fieldName ++ ToCamelCase (removeQuotes raw), value := raw })

/-- `generateEnumStruct` from `parser.go`: dedup by enum-literal signature;
on a miss, assign a unique name, fill the field's enum data and record the
signature. -/
def generateEnumStruct (dig : String → String) (kind : String) (reg : Registry)
    (prop : Schema) (fieldName : String) (field : FieldDef) (path : String) :
    String × FieldDef × Registry :=
  let hash := getHashEnum dig prop.enum
  match lookupHash reg hash with
  | some ft => (ft, field, reg)
  | none =>
    match newUniqFieldName dig kind reg fieldName false path with
    | (uniq, reg2) =>
      let field2 := { field with
        enums := generateEnum prop uniq
        enumType := mapType prop
        enumName := uniq }
      (uniq, field2, addHash reg2 hash uniq)

/-! ## `generateStructs` and `generateStructProperty`

The Go code inserts the parent `StructDef` into the resource before the
property loop and appends its fields through a pointer; since nothing reads
the struct map during generation, the model equivalently inserts the
finished struct after the loop.  Recursion into child schemas is passed in
as `recur`, instantiated with the fuelled `generateStructsF`. -/

/-- `generateStructProperty` from `parser.go`, parametric in the recursive
struct generator. -/
def generateStructPropertyG (dig : String → String)
    (recur : Registry → Schema → CustomResource → String → String → Bool →
      Option (Registry × CustomResource))
    (reg : Registry) (cr : CustomResource) (prop : Schema)
    (fieldName path propName : String) (root : Bool) :
    Option (String × Registry × CustomResource) :=
  let hash := getHashProps dig prop.properties
  match lookupHash reg hash with
  | some ft => some (ft, reg, cr)
  | none =>
    match newUniqFieldName dig cr.kind reg fieldName root path with
    | (uniq, reg2) =>
      match recur (addHash reg2 hash uniq) prop cr uniq (path ++ "." ++ propName) false with
      | none => none
      | some (reg3, cr2) => some (uniq, reg3, cr2)

/-- The type-switch part of one property-loop iteration of
`generateStructs`: compute the field type, possibly synthesizing nested
structs. -/
def propStepA (dig : String → String)
    (recur : Registry → Schema → CustomResource → String → String → Bool →
      Option (Registry × CustomResource))
    (reg : Registry) (cr : CustomResource) (prop : Schema)
    (fieldName path propName : String) (root : Bool) :
    Option (String × Registry × CustomResource) :=
  if prop.typ ≠ "" then
    if prop.typ = "object" then
      if 0 < prop.properties.length then
        generateStructPropertyG dig recur reg cr prop fieldName path propName root
      else
        match prop.addProps with
        | some (some s) => some ("map[string]" ++ mapType s, reg, cr)
        | _ => some ("map[string]any", reg, cr)
    else if prop.typ = "array" then
      match prop.items with
      | some (some s) =>
        if s.typ = "object" then
          match generateStructPropertyG dig recur reg cr s fieldName path propName root with
          | none => none
          | some (ft, reg2, cr2) => some ("[]" ++ ft, reg2, cr2)
        else some (mapType prop, reg, cr)
      | _ => some (mapType prop, reg, cr)
    else some (mapType prop, reg, cr)
  else
    match prop.refv with
    | some r => some (ToCamelCase (lastSegment r), reg, cr)
    | none => some ("*apiextensionsv1.JSON", reg, addImport cr apiextImport)

/-- The enum-check part of one property-loop iteration
(`if prop.Items != nil && len(prop.Items.Schema.Enum) > 0 ... else if
len(prop.Enum) > 0 ...`).  `none` is the nil-pointer dereference of
`prop.Items.Schema.Enum` when `Items` is non-nil but its `Schema` pointer
is nil (`some none`), which in Go is a panic. -/
def propStepB (dig : String → String) (kind : String) (reg1 : Registry)
    (prop : Schema) (fieldName path ft0 : String) (field0 : FieldDef) :
    Option (String × FieldDef × Registry) :=
  match prop.items with
  | some none => none
  | some (some s) =>
    if 0 < s.enum.length then
      match generateEnumStruct dig kind reg1 s fieldName field0 path with
      | (ft, f, reg2) => some ("[]" ++ ft, f, reg2)
    else if 0 < prop.enum.length then
      match generateEnumStruct dig kind reg1 prop fieldName field0 path with
      | (ft, f, reg2) => some (ft, f, reg2)
    else some (ft0, field0, reg1)
  | none =>
    if 0 < prop.enum.length then
      match generateEnumStruct dig kind reg1 prop fieldName field0 path with
      | (ft, f, reg2) => some (ft, f, reg2)
    else some (ft0, field0, reg1)

/-- The property loop of `generateStructs`, over the key-sorted property
list. -/
def goProps (dig : String → String)
    (recur : Registry → Schema → CustomResource → String → String → Bool →
      Option (Registry × CustomResource))
    (reg : Registry) (cr : CustomResource) (path : String) (root : Bool) :
    List (String × Schema) → Option (Registry × CustomResource × List FieldDef)
  | [] => some (reg, cr, [])
  | (propName, prop) :: rest =>
    match propStepA dig recur reg cr prop (ToCamelCase propName) path propName root with
    | none => none
    | some (ft0, reg1, cr1) =>
      match propStepB dig cr1.kind reg1 prop (ToCamelCase propName) path ft0
          { name := ToCamelCase propName, typ := "", jsonTag := propName,
            description := prop.descr, enums := [], enumName := "", enumType := "" } with
      | none => none
      | some (ftF, fieldF, regF) =>
        match goProps dig recur regF cr1 path root rest with
        | none => none
        | some (regR, crR, fieldsR) =>
          some (regR, crR, { fieldF with typ := ftF } :: fieldsR)

/-- `generateStructs` from `parser.go`, fuelled. -/
def generateStructsF (dig : String → String) :
    Nat → Registry → Schema → CustomResource → String → String → Bool →
      Option (Registry × CustomResource)
  | 0, _, _, _, _, _, _ => none
  | fuel + 1, reg, schema, cr, name, path, root =>
    match goProps dig (generateStructsF dig fuel) reg cr path root
        (sortByKey schema.properties) with
    | none => none
    | some (reg2, cr2, fields) =>
      let sd : StructDef :=
        { name := name, fields := fields,
          description := name ++ " represents a " ++ path, root := root }
      if root then some (reg2, { cr2 with root := some sd })
      else some (reg2, { cr2 with structs := (name, sd) :: cr2.structs })

/-- `generateStructs` entry point with sufficient fuel. -/
def generateStructs (dig : String → String) (reg : Registry) (schema : Schema)
    (cr : CustomResource) (name path : String) (root : Bool) :
    Option (Registry × CustomResource) :=
  generateStructsF dig schema.size reg schema cr name path root

/-- `generateStructProperty` entry point, with the recursive generator
instantiated at a given fuel. -/
def generateStructProperty (dig : String → String) (fuel : Nat) (reg : Registry)
    (cr : CustomResource) (prop : Schema) (fieldName path propName : String)
    (root : Bool) : Option (String × Registry × CustomResource) :=
  generateStructPropertyG dig (generateStructsF dig fuel) reg cr prop fieldName path propName root

/-! ## `extractSchemas`, `parseSingleCRD` and `Parse`

File reading and YAML unmarshalling are the excluded loader; `Parse` is
modelled over already-decoded CRD values.  `slog.Error` calls followed by
`return nil, false` are modelled as an error value carrying exactly the
fields the log line reports. -/

/-- One entry of `crd.Spec.Versions`. -/
structure CRDVersion where
  name : String
  storage : Bool
  schema : Schema

/-- A decoded CRD: `Spec.Names.{Kind,Plural,ListKind}`, `Spec.Group` and
`Spec.Versions`. -/
structure CRD where
  kind : String
  plural : String
  listKind : String
  group : String
  versions : List CRDVersion

/-- `extractSchemas`: the first version that is the storage version and,
when a version is desired, has exactly that name.  The error carries the
`desired` string interpolated into "could not find desired version %q in
CRD". -/
def extractSchemas (crd : CRD) (desired : String) : Except String (Schema × String) :=
  match crd.versions.find? (fun v => v.storage && (desired == "" || desired == v.name)) with
  | some v => .ok (v.schema, v.name)
  | none => .error desired

instance {e a : Type} [DecidableEq e] [DecidableEq a] : DecidableEq (Except e a)
  | .error x, .error y =>
    if h : x = y then isTrue (by rw [h]) else isFalse (fun hc => h (by cases hc; rfl))
  | .error _, .ok _ => isFalse (fun hc => Except.noConfusion hc)
  | .ok _, .error _ => isFalse (fun hc => Except.noConfusion hc)
  | .ok x, .ok y =>
    if h : x = y then isTrue (by rw [h]) else isFalse (fun hc => h (by cases hc; rfl))

/-- The batch-failure diagnostics of `Parse`, carrying exactly the fields
each `slog.Error` call logs.  `crdError` is the "Error parsing crd" path,
whose payload is only the wrapped error message (here the version string
`extractSchemas` failed on), with no resource kinds. -/
inductive ParseErr where
  | crdError (msg : String)
  | groupMismatch (groupA kindA groupB kindB : String)
  | versionMismatch (groupA versionA kindA groupB versionB kindB : String)
deriving DecidableEq, Repr

/-- `parseSingleCRD`: extract the schema for the desired version and run
`generateStructs` on it, rooted at the resource kind.  `none` is the
nil-pointer panic propagating out of `generateStructs`. -/
def parseSingleCRD (dig : String → String) (reg : Registry) (crd : CRD)
    (desiredVersion : String) : Option (Except String (Registry × CustomResource)) :=
  match extractSchemas crd desiredVersion with
  | .error e => some (.error e)
  | .ok (schema, version) =>
    match generateStructs dig reg schema
        { kind := crd.kind, plural := crd.plural, list := crd.listKind,
          group := crd.group, version := version, root := none, structs := [],
          imports := [metav1Import] }
        crd.kind crd.kind true with
    | none => none
    | some (reg2, cr2) => some (.ok (reg2, cr2))

/-- The loop state of `Parse` (`res` plus the local `crdKind`). -/
structure BatchState where
  items : List CustomResource
  names : List CRDNames
  group : String
  version : String
  reg : Registry
deriving DecidableEq, Repr

/-- The CRD loop of `Parse`: `i` is the loop index, `crdKind` the kind of
the previously processed CRD, `version` the pinned version argument. -/
def parseLoop (dig : String → String) (version : String) :
    List CRD → Nat → String → BatchState → Option (Except ParseErr BatchState)
  | [], _, _, st => some (.ok st)
  | crd :: rest, i, crdKind, st =>
    match parseSingleCRD dig st.reg crd st.version with
    | none => none
    | some (.error e) => some (.error (.crdError e))
    | some (.ok (reg2, cr)) =>
      if 0 < i ∧ st.group ≠ cr.group then
        some (.error (.groupMismatch st.group crdKind cr.group cr.kind))
      else if version ≠ "" ∧ version ≠ cr.version then
        some (.error (.versionMismatch st.group version crdKind cr.group cr.version cr.kind))
      else
        parseLoop dig version rest (i + 1) cr.kind
          { st with
            names := st.names ++ [({ kind := cr.kind, list := cr.list } : CRDNames)],
            reg := reg2, version := cr.version, group := cr.group,
            items := st.items ++ [cr] }

/-- The pointer-conversion pass of `Parse` on one field: slice and map
types get `*` inserted after the first `]` (the element type becomes a
pointer); every other type is prefixed with `*`. -/
def pointerizeField (f : FieldDef) : FieldDef :=
  if containsRBracket f.typ then { f with typ := replaceFirstRBracket f.typ }
  else { f with typ := "*" ++ f.typ }

/-- The pointer pass on one struct entry. -/
def pointerizeStructEntry (e : String × StructDef) : String × StructDef :=
  (e.1, { e.2 with fields := e.2.fields.map pointerizeField })

/-- The pointer pass on one resource: Go iterates `item.Structs` only, so
`Root` is untouched. -/
def pointerizeCR (cr : CustomResource) : CustomResource :=
  { cr with structs := cr.structs.map pointerizeStructEntry }

/-- `Parse` from `parser.go`, over decoded CRDs. -/
def Parse (dig : String → String) (crds : List CRD) (version : String)
    (pointerVars : Bool) : Option (Except ParseErr CustomResources) :=
  match parseLoop dig version crds 0 ""
      { items := [], names := [], group := "", version := version, reg := emptyRegistry } with
  | none => none
  | some (.error e) => some (.error e)
  | some (.ok st) =>
    let items := if pointerVars then st.items.map pointerizeCR else st.items
    some (.ok { items := items, names := st.names, group := st.group,
                version := st.version, reg := st.reg })

/-! ## The renderer's root filtering (`cmd/generate-crd-api/output.go`) -/

/-- `prepareDescription`: re-indent continuation lines of a comment. -/
def prepareDescription (desc : String) (field : Bool) : String :=
  String.mk (replaceNewlinesAux (if field then "\t// " else "// ") desc.data)
where
  replaceNewlinesAux (indent : String) : List Char → List Char
  | [] => []
  | c :: cs =>
    if c = '\n' then c :: (indent.data ++ replaceNewlinesAux indent cs)
    else c :: replaceNewlinesAux indent cs

/-- The field sort of `prepare` (`sort.Slice` by field name; modelled with
a stable sort, which agrees whenever generated field names are distinct). -/
def sortFieldsByName (fields : List FieldDef) : List FieldDef :=
  fields.insertionSort (fun a b => strLeB a.name b.name = true)

/-- `prepare` from `output.go`: reflow the struct comment, sort the fields
by name, reflow each field comment. -/
def prepare (sd : StructDef) : StructDef :=
  { sd with
    description := prepareDescription sd.description false,
    fields := (sortFieldsByName sd.fields).map
      (fun f => { f with description := prepareDescription f.description true }) }

/-- The root-struct filtering of `generateTypesCode`: after `prepare`, keep
only the fields whose JSON tag is `spec` or `status`. -/
def rootFieldsForRender (rootSd : StructDef) : List FieldDef :=
  (prepare rootSd).fields.filter (fun f => f.jsonTag == "spec" || f.jsonTag == "status")

/-! ## Auxiliary definitions used only by theorem statements -/

/-- Identity digest used to instantiate the abstract md5 parameter in
concrete evaluations; the refuted properties below are independent of the
digest function (the colliding digests are applied to identical input
strings). -/
def idDigest : String → String := fun s => s

/-- Normalize every property value with a given normalizer. -/
def normalizePropsWith (f : Schema → Schema) : List (String × Schema) → List (String × Schema)
  | [] => []
  | (k, s) :: rest => (k, f s) :: normalizePropsWith f rest

/-- Normalize an optional pointer-to-schema node with a given normalizer. -/
def normalizeNodeWith (f : Schema → Schema) : Option (Option Schema) → Option (Option Schema)
  | some (some s) => some (some (f s))
  | x => x

/-- Recursively sort every property list by key.  Two schemas have equal
normal forms exactly when they have the same content and differ only in
property iteration order; used to state key-order independence (C4). -/
def normalizeF : Nat → Schema → Schema
  | 0, s => s
  | fuel + 1, .mk typ fmt descr refv props items addP enum =>
    .mk typ fmt descr refv (sortByKey (normalizePropsWith (normalizeF fuel) props))
      (normalizeNodeWith (normalizeF fuel) items)
      (normalizeNodeWith (normalizeF fuel) addP) enum

/-- Normalize every property value. -/
def normalizeProps (fuel : Nat) (l : List (String × Schema)) : List (String × Schema) :=
  normalizePropsWith (normalizeF fuel) l

/-- Normalize an optional pointer-to-schema node. -/
def normalizeNode (fuel : Nat) (x : Option (Option Schema)) : Option (Option Schema) :=
  normalizeNodeWith (normalizeF fuel) x

/-- Normalization entry point. -/
def normalizeSchema (s : Schema) : Schema := normalizeF s.size s

/-- The per-property check of the C10 precondition, parameterized by the
recursive check. -/
def itemsOkPropsWith (check : Schema → Bool) : List (String × Schema) → Bool
  | [] => true
  | (_, p) :: rest =>
    (match p.items with | some none => false | _ => true)
      && check p
      && (match p.items with
          | some (some t) => check t
          | _ => true)
      && itemsOkPropsWith check rest

/-- The precondition of claim C10: every property anywhere in the tree
whose `Items` node is non-nil carries a non-nil single `Schema`
(`items ≠ some none`). -/
def itemsOkF : Nat → Schema → Bool
  | 0, _ => false
  | fuel + 1, s => itemsOkPropsWith (itemsOkF fuel) s.properties

/-- Precondition entry point. -/
def itemsOk (s : Schema) : Bool := itemsOkF s.size s

/-! ## Specification-side definitions used by theorem statements -/

/-- The ancestor-path-prefixed candidate names of `newUniqFieldName`,
innermost-first, as the spec describes them; compared against the code's
search loop. -/
def prefixNames (fieldName : String) : List String → String → List String
  | [], _ => []
  | seg :: rest, acc =>
    let acc2 := ToCamelCase seg ++ acc
    (acc2 ++ fieldName) :: prefixNames fieldName rest acc2

/-- The full candidate order claimed by the spec for a new type name:
bare field name (non-root only), then `Kind + FieldName`, then successively
longer innermost-first PascalCased path-prefixed names. -/
def candidateNames (kind fieldName path : String) (root : Bool) : List String :=
  (if root then [] else [fieldName])
    ++ (kind ++ fieldName) :: prefixNames fieldName (strSplitOnDot path).reverse ""

/-- Modelled from the spec: the canonical 5-field Condition shape (the
source code has no such notion, and also never reads `required`, so the
predicate checks the property structure the spec lists).  The `status`
enum literals are raw JSON strings. -/
def isConditionShape (s : Schema) : Prop :=
  s.typ = "object" ∧
  (sortByKey s.properties).map Prod.fst =
    ["lastTransitionTime", "message", "reason", "status", "type"] ∧
  (∀ e ∈ s.properties, (e : String × Schema).2.typ = "string") ∧
  (∀ e ∈ s.properties, (e : String × Schema).1 = "lastTransitionTime" →
    e.2.format = "date-time") ∧
  (∀ e ∈ s.properties, (e : String × Schema).1 = "status" →
    e.2.enum = ["\"True\"", "\"False\"", "\"Unknown\""])

/-! ## Concrete inputs for witnesses and counterexamples -/

/-- A scalar string schema. -/
def sStr : Schema := .mk "string" "" "" none [] none none []

/-- A scalar `integer`/`int32` schema. -/
def sInt32 : Schema := .mk "integer" "int32" "" none [] none none []

/-- An object schema with the given properties. -/
def sObj (props : List (String × Schema)) : Schema :=
  .mk "object" "" "" none props none none []

/-- An array schema with the given item schema. -/
def sArr (item : Schema) : Schema := .mk "array" "" "" none [] (some (some item)) none []

/-- The spec's end-to-end example A schema:
`{spec: {replicas: integer/int32}}`. -/
def schemaA : Schema := sObj [("spec", sObj [("replicas", sInt32)])]

/-- Example A as a CRD for kind `Widget`. -/
def crdA : CRD :=
  { kind := "Widget", plural := "widgets", listKind := "WidgetList",
    group := "example.io", versions := [{ name := "v1", storage := true, schema := schemaA }] }

/-- Six property keys that all PascalCase to `FooBar`, each an object with
a distinct property set: enough structurally distinct signatures to
exhaust every name candidate and reach the unreserved hash fallback
twice. -/
def schemaDupNames : Schema := sObj [("spec", sObj
  [ ("foo bar", sObj [("a1", sStr)]),
    ("foo+bar", sObj [("a2", sStr)]),
    ("foo-bar", sObj [("a3", sStr)]),
    ("foo.bar", sObj [("a4", sStr)]),
    ("fooBar", sObj [("a5", sStr)]),
    ("foo_bar", sObj [("a6", sStr)]) ])]

/-- The name-collision batch as a CRD for kind `TestCase`. -/
def crdDupNames : CRD :=
  { kind := "TestCase", plural := "testcases", listKind := "TestCaseList",
    group := "example.io", versions := [{ name := "v1", storage := true, schema := schemaDupNames }] }

/-- A schema node exactly matching the spec's Condition shape. -/
def conditionSchema : Schema := sObj
  [ ("lastTransitionTime", .mk "string" "date-time" "" none [] none none []),
    ("message", sStr),
    ("reason", sStr),
    ("status", .mk "string" "" "" none [] none none ["\"True\"", "\"False\"", "\"Unknown\""]),
    ("type", sStr) ]

/-- A `Widget` whose status carries two sibling array-of-Condition-shape
fields (the spec's end-to-end example B). -/
def crdConditions : CRD :=
  { kind := "Widget", plural := "widgets", listKind := "WidgetList",
    group := "example.io",
    versions := [{ name := "v1", storage := true, schema := (sObj
      [("status", sObj [("conditionsA", sArr conditionSchema),
                        ("conditionsB", sArr conditionSchema)])]) }] }

/-- A schema whose root declares a scalar string property next to `spec`,
to exercise the pointer pass on the root struct. -/
def crdRootScalar : CRD :=
  { kind := "Widget", plural := "widgets", listKind := "WidgetList",
    group := "example.io",
    versions := [{ name := "v1", storage := true, schema := (sObj
      [("foo", sStr), ("spec", sObj [("replicas", sInt32)])]) }] }

/-- A CRD whose storage version is `v2`. -/
def crdStorageV2 : CRD :=
  { kind := "Alpha", plural := "alphas", listKind := "AlphaList",
    group := "example.io",
    versions := [{ name := "v2", storage := true, schema := schemaA }] }

/-- A CRD of the same group that exposes `v2` only as a non-storage
version; pinning `v2` makes its schema extraction fail. -/
def crdStorageV1 : CRD :=
  { kind := "Beta", plural := "betas", listKind := "BetaList",
    group := "example.io",
    versions := [{ name := "v1", storage := true, schema := schemaA },
                 { name := "v2", storage := false, schema := schemaA }] }

/-- A CRD in a different API group. -/
def crdOtherGroup : CRD :=
  { kind := "Gamma", plural := "gammas", listKind := "GammaList",
    group := "other.io",
    versions := [{ name := "v1", storage := true, schema := schemaA }] }

/-- A property whose `Items` node is present but carries a nil `Schema`
pointer (an `items` given as a schema array), the C10 failing input. -/
def schemaBadItems : Schema := sObj
  [("spec", sObj [("weird", .mk "string" "" "" none [] (some none) none [])])]

/-- A fresh resource shell, as `parseSingleCRD` builds it. -/
def witnessCR : CustomResource :=
  { kind := "Widget", plural := "widgets", list := "WidgetList", group := "example.io",
    version := "v1", root := none, structs := [], imports := [metav1Import] }

/-- A one-property object schema used to exercise dedup concretely. -/
def propObjA : Schema := sObj [("a", sStr)]

/-- The registry state after compiling `propObjA` once from the empty
registry (field name `Conds`, path `Widget`). -/
def regAfterA : Registry :=
  { structHashes := [("(\"a\":(type:\"string\",format:\"\",description:\"\",ref:null,properties:(),items:null,additionalProperties:null,enum:[]))", "Conds")],
    structNames := ["Conds"] }

/-- The resource state after compiling `propObjA` once. -/
def crAfterA : CustomResource :=
  { kind := "Widget", plural := "widgets", list := "WidgetList", group := "example.io",
    version := "v1", root := none,
    structs := [("Conds",
      { name := "Conds",
        fields := [{ name := "A", typ := "string", jsonTag := "a", description := "",
                     enums := [], enumName := "", enumType := "" }],
        description := "Conds represents a Widget.conds", root := false })],
    imports := [metav1Import] }

/-- The resource state after an intervening `generateStructs` call
compiled an unrelated empty struct `Other`. -/
def crAfterOther : CustomResource :=
  { crAfterA with structs :=
      ("Other", { name := "Other", fields := [], description := "Other represents a Widget",
                  root := false }) :: crAfterA.structs }

/-- A registry in which every candidate for field `Foo` at path
`TestCase.Status.Bar` (kind `TestCase`) is already reserved, the state the
unit test `Test_newUniqFieldName` reaches before its fallback call. -/
def regSeeded : Registry :=
  { structHashes := [],
    structNames := ["TestCaseStatusBarFoo", "StatusBarFoo", "BarFoo", "TestCaseFoo", "Foo"] }

/-- A CRD whose schema has no properties, giving a minimal batch result. -/
def crdEmptySchema : CRD :=
  { kind := "Widget", plural := "widgets", listKind := "WidgetList",
    group := "example.io", versions := [{ name := "v1", storage := true, schema := sObj [] }] }

/-- A scalar field used to exercise the pointer pass. -/
def fieldReplicas : FieldDef :=
  { name := "Replicas", typ := "int32", jsonTag := "replicas",
    description := "", enums := [], enumName := "", enumType := "" }

/-- The root struct compiled from the empty schema. -/
def emptyRootSd : StructDef :=
  { name := "Widget", fields := [], description := "Widget represents a Widget",
    root := true }

/-- The resource compiled from `crdEmptySchema`. -/
def crEmptyCompiled : CustomResource :=
  { kind := "Widget", plural := "widgets", list := "WidgetList",
    group := "example.io", version := "v1", root := some emptyRootSd,
    structs := [], imports := [metav1Import] }

/-- The batch result of compiling `crdEmptySchema`. -/
def resEmptySchema : CustomResources :=
  { items := [crEmptyCompiled],
    names := [{ kind := "Widget", list := "WidgetList" }],
    group := "example.io", version := "v1",
    reg := { structHashes := [], structNames := [] } }

/-- A compiled resource answers for its CRD: same kind and group, and its
version is one of the CRD's storage-flagged versions (equal to the pinned
version when one is given). -/
def crMatches (ver : String) (cr : CustomResource) (crd : CRD) : Prop :=
  cr.kind = crd.kind ∧ cr.group = crd.group ∧
  ∃ v ∈ crd.versions, v.storage = true ∧ v.name = cr.version ∧
    (ver ≠ "" → cr.version = ver)

/-- A two-property spec object, properties listed in ascending key order. -/
def sPairAB : Schema := sObj [("alpha", sStr), ("beta", sInt32)]

/-- The same spec object with its property list permuted. -/
def sPairBA : Schema := sObj [("beta", sInt32), ("alpha", sStr)]

/-- A root schema over `sPairAB`. -/
def schemaPermA : Schema := sObj [("spec", sPairAB)]

/-- The same root schema with the nested property order permuted. -/
def schemaPermB : Schema := sObj [("spec", sPairBA)]

/-! ## Registry growth: recorded signatures and reserved names survive -/

/-- The registry only grows: every recorded signature binding and every
reserved name survives. -/
def regLe (reg reg2 : Registry) : Prop :=
  (∀ h v, lookupHash reg h = some v → lookupHash reg2 h = some v) ∧
  (∀ n, hasName reg n = true → hasName reg2 n = true)

theorem regLe_refl (reg : Registry) : regLe reg reg :=
  ⟨fun _ _ hv => hv, fun _ hn => hn⟩

theorem regLe_trans {a b c : Registry} (h1 : regLe a b) (h2 : regLe b c) : regLe a c :=
  ⟨fun h v hv => h2.1 h v (h1.1 h v hv), fun n hn => h2.2 n (h1.2 n hn)⟩

theorem lookupHash_addHash_self (reg : Registry) (h n : String) :
    lookupHash (addHash reg h n) h = some n := by
  simp [lookupHash, addHash, List.lookup]

theorem lookupHash_addName (reg : Registry) (m : String) (h : String) :
    lookupHash (addName reg m) h = lookupHash reg h := rfl

theorem hasName_addName_self (reg : Registry) (n : String) :
    hasName (addName reg n) n = true := by
  simp [hasName, addName]

theorem regLe_addName (reg : Registry) (n : String) : regLe reg (addName reg n) := by
  refine ⟨fun h v hv => hv, fun m hm => ?_⟩
  simp [hasName, addName] at hm ⊢
  exact Or.inr hm

theorem regLe_addHash (reg : Registry) (h n : String)
    (hfresh : lookupHash reg h = none) : regLe reg (addHash reg h n) := by
  refine ⟨fun h2 v hv => ?_, fun m hm => hm⟩
  have hne : h2 ≠ h := by
    intro he; rw [he] at hv; rw [hfresh] at hv; exact Option.noConfusion hv
  have hb : (h2 == h) = false := by simpa using hne
  simp only [lookupHash, addHash, List.lookup, hb]
  exact hv

/-- `uniqPrefixLoop` either reserves a fresh candidate or finds none. -/
theorem uniqPrefixLoop_cases (reg : Registry) (fieldName : String) :
    ∀ segs acc, (∃ n, uniqPrefixLoop reg fieldName segs acc = some (n, addName reg n) ∧
        hasName reg n = false) ∨
      uniqPrefixLoop reg fieldName segs acc = none := by
  intro segs
  induction segs with
  | nil => intro acc; exact Or.inr rfl
  | cons seg rest ih =>
    intro acc
    by_cases hn : hasName reg (ToCamelCase seg ++ acc ++ fieldName) = true
    · simpa [uniqPrefixLoop, hn] using ih (ToCamelCase seg ++ acc)
    · simp only [Bool.not_eq_true] at hn
      exact Or.inl ⟨ToCamelCase seg ++ acc ++ fieldName, by simp [uniqPrefixLoop, hn], hn⟩

/-- `newUniqFieldName` either reserves a fresh candidate or returns the
fallback without touching the registry. -/
theorem newUniqFieldName_cases (dig : String → String) (kind : String)
    (reg : Registry) (fieldName : String) (root : Bool) (path : String) :
    (∃ n, newUniqFieldName dig kind reg fieldName root path = (n, addName reg n) ∧
      hasName reg n = false) ∨
    newUniqFieldName dig kind reg fieldName root path =
      (fallbackName dig fieldName path, reg) := by
  unfold newUniqFieldName
  by_cases hbare : (root = false ∧ hasName reg fieldName = false)
  · simp only [if_pos hbare]
    exact Or.inl ⟨fieldName, rfl, hbare.2⟩
  · simp only [if_neg hbare]
    by_cases hkn : hasName reg (kind ++ fieldName) = false
    · simp only [if_pos hkn]
      exact Or.inl ⟨kind ++ fieldName, rfl, hkn⟩
    · simp only [if_neg hkn]
      rcases uniqPrefixLoop_cases reg fieldName (strSplitOnDot path).reverse "" with
        ⟨n, heq, hfree⟩ | hnone
      · rw [heq]; exact Or.inl ⟨n, rfl, hfree⟩
      · rw [hnone]; exact Or.inr rfl

theorem newUniqFieldName_regLe (dig : String → String) (kind : String)
    (reg : Registry) (fieldName : String) (root : Bool) (path : String) :
    regLe reg (newUniqFieldName dig kind reg fieldName root path).2 := by
  rcases newUniqFieldName_cases dig kind reg fieldName root path with ⟨n, heq, _⟩ | heq
  · rw [heq]; exact regLe_addName reg n
  · rw [heq]; exact regLe_refl reg

theorem newUniqFieldName_structHashes (dig : String → String) (kind : String)
    (reg : Registry) (fieldName : String) (root : Bool) (path : String) :
    (newUniqFieldName dig kind reg fieldName root path).2.structHashes =
      reg.structHashes := by
  rcases newUniqFieldName_cases dig kind reg fieldName root path with ⟨n, heq, _⟩ | heq
  · rw [heq]; rfl
  · rw [heq]

theorem generateEnumStruct_regLe (dig : String → String) (kind : String)
    (reg : Registry) (prop : Schema) (fieldName : String) (field : FieldDef)
    (path : String) :
    regLe reg (generateEnumStruct dig kind reg prop fieldName field path).2.2 := by
  unfold generateEnumStruct
  cases hl : lookupHash reg (getHashEnum dig prop.enum) with
  | some ft => simp only [hl]; exact regLe_refl reg
  | none =>
    simp only [hl]
    rcases hnu : newUniqFieldName dig kind reg fieldName false path with ⟨uniq, reg2⟩
    simp only [hnu]
    have h1 : regLe reg reg2 := by
      have := newUniqFieldName_regLe dig kind reg fieldName false path
      rwa [hnu] at this
    have h2 : lookupHash reg2 (getHashEnum dig prop.enum) = none := by
      have hsh := newUniqFieldName_structHashes dig kind reg fieldName false path
      rw [hnu] at hsh
      unfold lookupHash at hl ⊢
      rw [show reg2.structHashes = reg.structHashes from hsh]
      exact hl
    exact regLe_trans h1 (regLe_addHash _ _ _ h2)

/-- The resource-identity fields never change during generation. -/
def crIdEq (cr cr2 : CustomResource) : Prop :=
  cr2.kind = cr.kind ∧ cr2.plural = cr.plural ∧ cr2.list = cr.list ∧
  cr2.group = cr.group ∧ cr2.version = cr.version

theorem crIdEq_refl (cr : CustomResource) : crIdEq cr cr :=
  ⟨rfl, rfl, rfl, rfl, rfl⟩

theorem crIdEq_trans {c1 c2 c3 : CustomResource} (h1 : crIdEq c1 c2)
    (h2 : crIdEq c2 c3) : crIdEq c1 c3 :=
  ⟨h2.1.trans h1.1, h2.2.1.trans h1.2.1, h2.2.2.1.trans h1.2.2.1,
   h2.2.2.2.1.trans h1.2.2.2.1, h2.2.2.2.2.trans h1.2.2.2.2⟩

/-- One generation step only grows the registry, only adds structs, and
keeps the resource identity. -/
def stepLe (reg : Registry) (cr : CustomResource) (reg2 : Registry)
    (cr2 : CustomResource) : Prop :=
  regLe reg reg2 ∧ (∀ e : String × StructDef, e ∈ cr.structs → e ∈ cr2.structs) ∧
    crIdEq cr cr2

theorem stepLe_refl (reg : Registry) (cr : CustomResource) : stepLe reg cr reg cr :=
  ⟨regLe_refl reg, fun _ he => he, crIdEq_refl cr⟩

theorem stepLe_trans {r1 r2 r3 : Registry} {c1 c2 c3 : CustomResource}
    (h1 : stepLe r1 c1 r2 c2) (h2 : stepLe r2 c2 r3 c3) : stepLe r1 c1 r3 c3 :=
  ⟨regLe_trans h1.1 h2.1, fun e he => h2.2.1 e (h1.2.1 e he),
   crIdEq_trans h1.2.2 h2.2.2⟩

/-- The recursive generator passed into the property loop preserves the
registry and the struct set. -/
def RecurTame (recur : Registry → Schema → CustomResource → String → String → Bool →
    Option (Registry × CustomResource)) : Prop :=
  ∀ reg s cr n p r reg2 cr2, recur reg s cr n p r = some (reg2, cr2) →
    stepLe reg cr reg2 cr2

theorem addImport_structs (cr : CustomResource) (imp : String) :
    (addImport cr imp).structs = cr.structs := by
  unfold addImport
  split <;> rfl

theorem addImport_kind (cr : CustomResource) (imp : String) :
    (addImport cr imp).kind = cr.kind := by
  unfold addImport
  split <;> rfl

theorem addImport_plural (cr : CustomResource) (imp : String) :
    (addImport cr imp).plural = cr.plural := by
  unfold addImport
  split <;> rfl

theorem addImport_list (cr : CustomResource) (imp : String) :
    (addImport cr imp).list = cr.list := by
  unfold addImport
  split <;> rfl

theorem addImport_group (cr : CustomResource) (imp : String) :
    (addImport cr imp).group = cr.group := by
  unfold addImport
  split <;> rfl

theorem addImport_version (cr : CustomResource) (imp : String) :
    (addImport cr imp).version = cr.version := by
  unfold addImport
  split <;> rfl

theorem generateStructPropertyG_stepLe {dig : String → String} {recur}
    (hrec : RecurTame recur) {reg : Registry} {cr : CustomResource} {prop : Schema}
    {fieldName path propName : String} {root : Bool} {ft : String}
    {reg2 : Registry} {cr2 : CustomResource}
    (h : generateStructPropertyG dig recur reg cr prop fieldName path propName root =
      some (ft, reg2, cr2)) : stepLe reg cr reg2 cr2 := by
  unfold generateStructPropertyG at h
  cases hl : lookupHash reg (getHashProps dig prop.properties) with
  | some ft0 =>
    simp only [hl] at h
    cases h
    exact stepLe_refl reg cr
  | none =>
    simp only [hl] at h
    cases hnu : newUniqFieldName dig cr.kind reg fieldName root path with
    | mk uniq nreg =>
    rw [hnu] at h
    cases hrc : recur (addHash nreg (getHashProps dig prop.properties) uniq) prop cr uniq
        (path ++ "." ++ propName) false with
    | none =>
      rw [hrc] at h
      exact Option.noConfusion h
    | some out =>
      rcases out with ⟨reg3, cr3⟩
      rw [hrc] at h
      cases h
      have ha : regLe reg nreg := by
        have := newUniqFieldName_regLe dig cr.kind reg fieldName root path
        rwa [hnu] at this
      have hfresh : lookupHash nreg (getHashProps dig prop.properties) = none := by
        have hsh := newUniqFieldName_structHashes dig cr.kind reg fieldName root path
        rw [hnu] at hsh
        unfold lookupHash at hl ⊢
        rw [show nreg.structHashes = reg.structHashes from hsh]
        exact hl
      have hb : regLe nreg (addHash nreg (getHashProps dig prop.properties) uniq) :=
        regLe_addHash _ _ _ hfresh
      have hc := hrec _ _ _ _ _ _ _ _ hrc
      exact stepLe_trans ⟨regLe_trans ha hb, fun e he => he, crIdEq_refl cr⟩ hc

theorem propStepA_stepLe {dig : String → String} {recur}
    (hrec : RecurTame recur) {reg : Registry} {cr : CustomResource} {prop : Schema}
    {fieldName path propName : String} {root : Bool} {ft : String}
    {reg2 : Registry} {cr2 : CustomResource}
    (h : propStepA dig recur reg cr prop fieldName path propName root =
      some (ft, reg2, cr2)) : stepLe reg cr reg2 cr2 := by
  unfold propStepA at h
  split at h
  · split at h
    · split at h
      · exact generateStructPropertyG_stepLe hrec h
      · split at h
        · cases h; exact stepLe_refl reg cr
        · cases h; exact stepLe_refl reg cr
    · split at h
      · split at h
        · split at h
          · rename_i s hs hso
            cases hg : generateStructPropertyG dig recur reg cr s fieldName path propName root with
            | none => rw [hg] at h; exact Option.noConfusion h
            | some out =>
              rcases out with ⟨ft1, rg1, cr1⟩
              rw [hg] at h
              cases h
              exact generateStructPropertyG_stepLe hrec hg
          · cases h; exact stepLe_refl reg cr
        · cases h; exact stepLe_refl reg cr
      · cases h; exact stepLe_refl reg cr
  · split at h
    · cases h; exact stepLe_refl reg cr
    · cases h
      exact ⟨regLe_refl reg, fun e he => by rwa [addImport_structs],
        by rw [addImport_kind], by rw [addImport_plural], by rw [addImport_list],
        by rw [addImport_group], by rw [addImport_version]⟩

theorem propStepB_regLe {dig : String → String} {kind : String} {reg1 : Registry}
    {prop : Schema} {fieldName path ft0 : String} {field0 : FieldDef}
    {ftF : String} {fieldF : FieldDef} {regF : Registry}
    (h : propStepB dig kind reg1 prop fieldName path ft0 field0 =
      some (ftF, fieldF, regF)) : regLe reg1 regF := by
  unfold propStepB at h
  split at h
  · exact Option.noConfusion h
  · split at h
    · rename_i s hs hse
      rcases hge : generateEnumStruct dig kind reg1 s fieldName field0 path with ⟨ft, f, rg⟩
      rw [hge] at h
      cases h
      have := generateEnumStruct_regLe dig kind reg1 s fieldName field0 path
      rwa [hge] at this
    · split at h
      · rcases hge : generateEnumStruct dig kind reg1 prop fieldName field0 path with ⟨ft, f, rg⟩
        rw [hge] at h
        cases h
        have := generateEnumStruct_regLe dig kind reg1 prop fieldName field0 path
        rwa [hge] at this
      · cases h; exact regLe_refl reg1
  · split at h
    · rcases hge : generateEnumStruct dig kind reg1 prop fieldName field0 path with ⟨ft, f, rg⟩
      rw [hge] at h
      cases h
      have := generateEnumStruct_regLe dig kind reg1 prop fieldName field0 path
      rwa [hge] at this
    · cases h; exact regLe_refl reg1

theorem goProps_stepLe {dig : String → String} {recur} (hrec : RecurTame recur) :
    ∀ (l : List (String × Schema)) (reg : Registry) (cr : CustomResource)
      (path : String) (root : Bool) (reg2 : Registry) (cr2 : CustomResource)
      (fields : List FieldDef),
      goProps dig recur reg cr path root l = some (reg2, cr2, fields) →
      stepLe reg cr reg2 cr2 := by
  intro l
  induction l with
  | nil =>
    intro reg cr path root reg2 cr2 fields h
    unfold goProps at h
    cases h
    exact stepLe_refl reg cr
  | cons e rest ih =>
    intro reg cr path root reg2 cr2 fields h
    rcases e with ⟨propName, prop⟩
    unfold goProps at h
    cases hA : propStepA dig recur reg cr prop (ToCamelCase propName) path propName root with
    | none => rw [hA] at h; exact Option.noConfusion h
    | some outA =>
      rcases outA with ⟨ft0, reg1, cr1⟩
      rw [hA] at h
      dsimp only at h
      cases hB : propStepB dig cr1.kind reg1 prop (ToCamelCase propName) path ft0
          { name := ToCamelCase propName, typ := "", jsonTag := propName,
            description := prop.descr, enums := [], enumName := "", enumType := "" } with
      | none => rw [hB] at h; exact Option.noConfusion h
      | some outB =>
        rcases outB with ⟨ftF, fieldF, regF⟩
        rw [hB] at h
        dsimp only at h
        cases hR : goProps dig recur regF cr1 path root rest with
        | none => rw [hR] at h; exact Option.noConfusion h
        | some outR =>
          rcases outR with ⟨regR, crR, fieldsR⟩
          rw [hR] at h
          cases h
          have h1 := propStepA_stepLe hrec hA
          have h2 : stepLe reg1 cr1 regF cr1 :=
            ⟨propStepB_regLe hB, fun _ he => he, crIdEq_refl cr1⟩
          have h3 := ih regF cr1 path root _ _ _ hR
          exact stepLe_trans h1 (stepLe_trans h2 h3)

theorem generateStructsF_stepLe (dig : String → String) :
    ∀ (fuel : Nat), RecurTame (generateStructsF dig fuel) := by
  intro fuel
  induction fuel with
  | zero =>
    intro reg s cr n p r reg2 cr2 h
    exact Option.noConfusion h
  | succ fuel ih =>
    intro reg s cr n p r reg2 cr2 h
    unfold generateStructsF at h
    cases hg : goProps dig (generateStructsF dig fuel) reg cr p r (sortByKey s.properties) with
    | none => rw [hg] at h; exact Option.noConfusion h
    | some out =>
      rcases out with ⟨reg3, cr3, fields⟩
      rw [hg] at h
      have hgo := goProps_stepLe ih _ reg cr p r reg3 cr3 fields hg
      cases r with
      | true =>
        simp only [if_pos rfl] at h
        cases h
        exact ⟨hgo.1, hgo.2.1, hgo.2.2⟩
      | false =>
        simp only [Bool.false_eq_true, if_neg (not_false_iff.mpr trivial)] at h
        cases h
        exact ⟨hgo.1, fun e he => List.mem_cons_of_mem _ (hgo.2.1 e he), hgo.2.2⟩

/-- A recorded signature makes `generateStructProperty` a pure lookup: it
returns the recorded name and changes neither the registry nor the
resource. -/
theorem generateStructPropertyG_hit {dig : String → String} {recur}
    {reg : Registry} {cr : CustomResource} {prop : Schema}
    {fieldName path propName : String} {root : Bool} {ft : String}
    (hl : lookupHash reg (getHashProps dig prop.properties) = some ft) :
    generateStructPropertyG dig recur reg cr prop fieldName path propName root =
      some (ft, reg, cr) := by
  unfold generateStructPropertyG
  simp only [hl]

/-- After a successful `generateStructProperty`, the signature of its
property set is recorded and maps to the returned type name. -/
theorem generateStructPropertyG_lookup {dig : String → String} {recur}
    (hrec : RecurTame recur) {reg : Registry} {cr : CustomResource} {prop : Schema}
    {fieldName path propName : String} {root : Bool} {ft : String}
    {reg2 : Registry} {cr2 : CustomResource}
    (h : generateStructPropertyG dig recur reg cr prop fieldName path propName root =
      some (ft, reg2, cr2)) :
    lookupHash reg2 (getHashProps dig prop.properties) = some ft := by
  unfold generateStructPropertyG at h
  cases hl : lookupHash reg (getHashProps dig prop.properties) with
  | some ft0 =>
    simp only [hl] at h
    cases h
    exact hl
  | none =>
    simp only [hl] at h
    cases hnu : newUniqFieldName dig cr.kind reg fieldName root path with
    | mk uniq nreg =>
    rw [hnu] at h
    cases hrc : recur (addHash nreg (getHashProps dig prop.properties) uniq) prop cr uniq
        (path ++ "." ++ propName) false with
    | none =>
      rw [hrc] at h
      exact Option.noConfusion h
    | some out =>
      rcases out with ⟨reg3, cr3⟩
      rw [hrc] at h
      cases h
      have hself := lookupHash_addHash_self nreg (getHashProps dig prop.properties) uniq
      exact (hrec _ _ _ _ _ _ _ _ hrc).1.1 _ _ hself

/-- A non-root `generateStructs` call synthesizes a struct under its
assigned name. -/
theorem generateStructsF_synthesizes {dig : String → String} {fuel : Nat}
    {reg : Registry} {s : Schema} {cr : CustomResource} {name path : String}
    {reg2 : Registry} {cr2 : CustomResource}
    (h : generateStructsF dig fuel reg s cr name path false = some (reg2, cr2)) :
    ∃ sd, (name, sd) ∈ cr2.structs := by
  cases fuel with
  | zero => exact Option.noConfusion h
  | succ fuel =>
    unfold generateStructsF at h
    cases hg : goProps dig (generateStructsF dig fuel) reg cr path false
        (sortByKey s.properties) with
    | none => rw [hg] at h; exact Option.noConfusion h
    | some out =>
      rcases out with ⟨reg3, cr3, fields⟩
      rw [hg] at h
      simp only [Bool.false_eq_true, if_neg (not_false_iff.mpr trivial)] at h
      cases h
      exact ⟨_, List.mem_cons_self _ _⟩

/-- On a fresh signature, `generateStructProperty` synthesizes a struct
named by the returned type name. -/
theorem generateStructPropertyG_fresh_synthesizes {dig : String → String} {fuel : Nat}
    {reg : Registry} {cr : CustomResource} {prop : Schema}
    {fieldName path propName : String} {root : Bool} {ft : String}
    {reg2 : Registry} {cr2 : CustomResource}
    (hl : lookupHash reg (getHashProps dig prop.properties) = none)
    (h : generateStructPropertyG dig (generateStructsF dig fuel) reg cr prop
      fieldName path propName root = some (ft, reg2, cr2)) :
    ∃ sd, (ft, sd) ∈ cr2.structs := by
  unfold generateStructPropertyG at h
  simp only [hl] at h
  cases hnu : newUniqFieldName dig cr.kind reg fieldName root path with
  | mk uniq nreg =>
  rw [hnu] at h
  cases hrc : generateStructsF dig fuel
      (addHash nreg (getHashProps dig prop.properties) uniq) prop cr uniq
      (path ++ "." ++ propName) false with
  | none =>
    rw [hrc] at h
    exact Option.noConfusion h
  | some out =>
    rcases out with ⟨reg3, cr3⟩
    rw [hrc] at h
    cases h
    exact generateStructsF_synthesizes hrc

/-- C1: within one batch, once an object property's canonical signature has
been compiled to a struct name, any later object property with the same
signature — after arbitrary further compilation — is resolved by a pure
lookup: it receives the same name, the registry is unchanged, and no new
struct is synthesized; the first occurrence recorded the signature-to-name
binding and (when its signature was fresh) synthesized the struct. -/
theorem C1_dedup_same_struct_name (dig : String → String) (fuel1 fuelMid fuel2 : Nat)
    (reg reg1 reg2 : Registry) (cr cr1 crM cr2 : CustomResource)
    (p1 p2 sM : Schema) (f1 path1 pn1 f2 path2 pn2 nM pM : String)
    (r1 r2 rM : Bool) (t1 : String)
    (h1 : generateStructProperty dig fuel1 reg cr p1 f1 path1 pn1 r1 = some (t1, reg1, cr1))
    (hmid : generateStructsF dig fuelMid reg1 sM crM nM pM rM = some (reg2, cr2))
    (hh : getHashProps dig p2.properties = getHashProps dig p1.properties) :
    generateStructProperty dig fuel2 reg2 cr2 p2 f2 path2 pn2 r2 = some (t1, reg2, cr2) ∧
    lookupHash reg1 (getHashProps dig p1.properties) = some t1 ∧
    (lookupHash reg (getHashProps dig p1.properties) = none →
      ∃ sd, (t1, sd) ∈ cr1.structs) := by
  unfold generateStructProperty at h1
  have hrec1 := generateStructsF_stepLe dig fuel1
  have hlook : lookupHash reg1 (getHashProps dig p1.properties) = some t1 :=
    generateStructPropertyG_lookup hrec1 h1
  have hrecM := generateStructsF_stepLe dig fuelMid
  have hpres := hrecM _ _ _ _ _ _ _ _ hmid
  have hlook2 : lookupHash reg2 (getHashProps dig p2.properties) = some t1 := by
    rw [hh]
    exact hpres.1.1 _ _ hlook
  refine ⟨?_, hlook, fun hnone => generateStructPropertyG_fresh_synthesizes hnone h1⟩
  unfold generateStructProperty
  exact generateStructPropertyG_hit hlook2

/-- C1 witness: concrete dedup run — compiling the one-field object twice
around an unrelated compilation yields the same name `Conds`, a recorded
signature, a synthesized struct, and a pure lookup the second time. -/
theorem C1_dedup_same_struct_name_witness :
    generateStructProperty idDigest 4 regAfterA crAfterOther propObjA "Second"
        "Widget.status" "second" false = some ("Conds", regAfterA, crAfterOther) ∧
    lookupHash regAfterA (getHashProps idDigest propObjA.properties) = some "Conds" ∧
    (lookupHash emptyRegistry (getHashProps idDigest propObjA.properties) = none →
      ∃ sd, ("Conds", sd) ∈ crAfterA.structs) := by
  have h := C1_dedup_same_struct_name idDigest 3 3 4 emptyRegistry regAfterA regAfterA
    witnessCR crAfterA crAfterA crAfterOther propObjA propObjA (sObj [])
    "Conds" "Widget" "conds" "Second" "Widget.status" "second" "Other" "Widget"
    false false false "Conds" (by decide) (by decide) rfl
  exact h

/-- The candidate search loop of `newUniqFieldName` reserves exactly the
first free ancestor-path-prefixed candidate. -/
theorem uniqPrefixLoop_eq_find (reg : Registry) (fieldName : String) :
    ∀ (segs : List String) (acc : String),
      uniqPrefixLoop reg fieldName segs acc =
        match (prefixNames fieldName segs acc).find? (fun n => !hasName reg n) with
        | some n => some (n, addName reg n)
        | none => none := by
  intro segs
  induction segs with
  | nil => intro acc; rfl
  | cons seg rest ih =>
    intro acc
    cases hn : hasName reg (ToCamelCase seg ++ acc ++ fieldName) with
    | true =>
      simp only [uniqPrefixLoop, prefixNames, List.find?, hn, Bool.not_true, if_pos rfl]
      exact ih (ToCamelCase seg ++ acc)
    | false =>
      simp [uniqPrefixLoop, prefixNames, List.find?, hn]

/-- C3 (amended): the name chosen by `newUniqFieldName` is the first
candidate not yet reserved, in the exact order: bare field name (non-root
callers only), then `Kind + FieldName`, then successively longer
innermost-first PascalCased ancestor-path prefixes; when every candidate is
reserved, the hash-suffixed fallback is returned — without being reserved
and without any freshness check. -/
theorem C3_candidate_order (dig : String → String) (kind : String) (reg : Registry)
    (fieldName : String) (root : Bool) (path : String) :
    newUniqFieldName dig kind reg fieldName root path =
      match (candidateNames kind fieldName path root).find? (fun n => !hasName reg n) with
      | some n => (n, addName reg n)
      | none => (fallbackName dig fieldName path, reg) := by
  cases root with
  | true =>
    cases hkn : hasName reg (kind ++ fieldName) with
    | false => simp [newUniqFieldName, candidateNames, hkn, List.find?]
    | true =>
      simp [newUniqFieldName, candidateNames, hkn, List.find?,
        uniqPrefixLoop_eq_find reg fieldName (strSplitOnDot path).reverse ""]
      cases hf : List.find? (fun n => !hasName reg n)
          (prefixNames fieldName (strSplitOnDot path).reverse "") <;> simp [hf]
  | false =>
    cases hbare : hasName reg fieldName with
    | false => simp [newUniqFieldName, candidateNames, hbare, List.find?]
    | true =>
      cases hkn : hasName reg (kind ++ fieldName) with
      | false => simp [newUniqFieldName, candidateNames, hbare, hkn, List.find?]
      | true =>
        simp [newUniqFieldName, candidateNames, hbare, hkn, List.find?,
          uniqPrefixLoop_eq_find reg fieldName (strSplitOnDot path).reverse ""]
        cases hf : List.find? (fun n => !hasName reg n)
            (prefixNames fieldName (strSplitOnDot path).reverse "") <;> simp [hf]

/-- C3 counterexample: when every candidate for `Foo` at path
`TestCase.Status.Bar` is reserved, two successive assignments both return
the identical hash-suffixed fallback name — the fallback collides with a
previously assigned name, refuting "the fallback never collides with any
other assigned name". -/
theorem C3_fallback_collides :
    (newUniqFieldName idDigest "TestCase" regSeeded "Foo" false "TestCase.Status.Bar").1 =
      "Foo_TestCase.Status.Bar.Foo" ∧
    (newUniqFieldName idDigest "TestCase"
        (newUniqFieldName idDigest "TestCase" regSeeded "Foo" false "TestCase.Status.Bar").2
        "Foo" false "TestCase.Status.Bar").1 = "Foo_TestCase.Status.Bar.Foo" := by
  constructor
  · decide
  · decide

/-- C2 counterexample: in the batch `crdDupNames`, six property keys under
`spec` all PascalCase to `FooBar` while their object schemas are pairwise
structurally distinct.  The candidate chain is exhausted after four
assignments, and the fifth and sixth signature — two *distinct*
signatures — are both assigned the identical unreserved fallback name
`FooBar_TestCase.spec.FooBar`, refuting pairwise distinctness of assigned
names. -/
theorem C2_distinct_signatures_same_name :
    (match Parse idDigest [crdDupNames] "" false with
     | some (.ok res) =>
       (lookupHash res.reg (getHashProps idDigest (sObj [("a5", sStr)]).properties),
        lookupHash res.reg (getHashProps idDigest (sObj [("a6", sStr)]).properties))
     | _ => (none, none))
      = (some "FooBar_TestCase.spec.FooBar", some "FooBar_TestCase.spec.FooBar") ∧
    getHashProps idDigest (sObj [("a5", sStr)]).properties ≠
      getHashProps idDigest (sObj [("a6", sStr)]).properties := by
  exact ⟨by decide, by decide⟩

/-- C2 (amended): any two names assigned through the reserving candidate
chain (bare, kind-prefixed or path-prefixed — every assignment that does
not return the hash-suffixed fallback) are pairwise distinct, across the
whole batch and any intervening compilation; only fallback-path
assignments can repeat a name. -/
theorem C2_reserved_names_pairwise_distinct (dig : String → String)
    (kind1 kind2 f1 f2 path1 path2 nM pM : String) (r1 r2 rM : Bool)
    (reg reg2 : Registry) (sM : Schema) (crM cr2 : CustomResource) (fuel : Nat)
    (h1free : (newUniqFieldName dig kind1 reg f1 r1 path1).1 ≠ fallbackName dig f1 path1)
    (hmid : generateStructsF dig fuel (newUniqFieldName dig kind1 reg f1 r1 path1).2
      sM crM nM pM rM = some (reg2, cr2))
    (h2free : (newUniqFieldName dig kind2 reg2 f2 r2 path2).1 ≠ fallbackName dig f2 path2) :
    (newUniqFieldName dig kind1 reg f1 r1 path1).1 ≠
      (newUniqFieldName dig kind2 reg2 f2 r2 path2).1 := by
  rcases newUniqFieldName_cases dig kind1 reg f1 r1 path1 with ⟨m1, heq1, _⟩ | heq1
  · have hp1 : (newUniqFieldName dig kind1 reg f1 r1 path1).1 = m1 := by rw [heq1]
    have hp2 : (newUniqFieldName dig kind1 reg f1 r1 path1).2 = addName reg m1 := by rw [heq1]
    have hres : hasName (newUniqFieldName dig kind1 reg f1 r1 path1).2
        (newUniqFieldName dig kind1 reg f1 r1 path1).1 = true := by
      rw [hp1, hp2]
      exact hasName_addName_self reg m1
    have hres2 : hasName reg2 (newUniqFieldName dig kind1 reg f1 r1 path1).1 = true :=
      ((generateStructsF_stepLe dig fuel) _ _ _ _ _ _ _ _ hmid).1.2 _ hres
    rcases newUniqFieldName_cases dig kind2 reg2 f2 r2 path2 with ⟨m2, heq2, hfree2⟩ | heq2
    · have hq1 : (newUniqFieldName dig kind2 reg2 f2 r2 path2).1 = m2 := by rw [heq2]
      rw [hq1]
      intro hcontra
      rw [hcontra] at hres2
      rw [hres2] at hfree2
      exact Bool.noConfusion hfree2
    · have hq1 : (newUniqFieldName dig kind2 reg2 f2 r2 path2).1 =
          fallbackName dig f2 path2 := by rw [heq2]
      exact absurd hq1 h2free
  · have hp1 : (newUniqFieldName dig kind1 reg f1 r1 path1).1 =
        fallbackName dig f1 path1 := by rw [heq1]
    exact absurd hp1 h1free

/-- C2 amended-claim witness: two concrete reserving assignments around an
intervening compilation produce distinct names. -/
theorem C2_reserved_names_pairwise_distinct_witness :
    (newUniqFieldName idDigest "Widget" emptyRegistry "Spec" true "Widget").1 ≠
      (newUniqFieldName idDigest "Widget" (addName emptyRegistry "WidgetSpec")
        "Status" true "Widget").1 := by
  have h := C2_reserved_names_pairwise_distinct idDigest "Widget" "Widget" "Spec" "Status"
    "Widget" "Widget" "Other" "Widget" true true false
    emptyRegistry (addName emptyRegistry "WidgetSpec")
    (sObj []) witnessCR
    { witnessCR with structs :=
        ("Other", { name := "Other", fields := [], description := "Other represents a Widget",
                    root := false }) :: witnessCR.structs }
    1
    (by decide) (by decide) (by decide)
  exact h

theorem strAppendEmpty (s : String) : s ++ "" = s := by
  cases s with
  | mk data =>
    show String.mk (data ++ []) = String.mk data
    rw [List.append_nil]

/-- C8 counterexample: for an enum with literals `"*"` and `""`, both
generated constants are named exactly the bare enum type name
`WidgetMode` — no reserved "all" or "empty value" suffix exists, and the
two constants collide with each other and with the type name. -/
theorem C8_wildcard_and_empty_literals_collapse :
    (generateEnum (Schema.mk "string" "" "" none [] none none ["\"*\"", "\"\""])
        "WidgetMode").map EnumDef.name = ["WidgetMode", "WidgetMode"] := by
  decide

/-- C8 (amended): each generated constant identifier is the enum type name
plus the PascalCased quote-stripped literal; the literals `"*"` and `""`
contribute an empty suffix, so their constants are named exactly the bare
enum type name. -/
theorem C8_enum_constant_names (prop : Schema) (fieldName : String) :
    (generateEnum prop fieldName).map EnumDef.name =
      prop.enum.map (fun raw => fieldName ++ ToCamelCase (removeQuotes raw)) ∧
    ∀ e ∈ generateEnum prop fieldName,
      (removeQuotes e.value = "*" ∨ removeQuotes e.value = "") →
        e.name = fieldName := by
  constructor
  · unfold generateEnum
    rw [List.map_map]
    rfl
  · intro e he hlit
    unfold generateEnum at he
    rcases List.mem_map.mp he with ⟨raw, hraw, heq⟩
    cases heq
    rcases hlit with hstar | hempty
    · simp only [hstar]
      have hc : ToCamelCase "*" = "" := by decide
      rw [hc, strAppendEmpty]
    · simp only [hempty]
      have hc : ToCamelCase "" = "" := by decide
      rw [hc, strAppendEmpty]

/-- C8 amended-claim witness: the wildcard literal's constant carries the
bare enum type name. -/
theorem C8_enum_constant_names_witness :
    ({ name := "WidgetMode", value := "\"*\"" } : EnumDef).name = "WidgetMode" :=
  (C8_enum_constant_names (Schema.mk "string" "" "" none [] none none ["\"*\"", "\"\""])
      "WidgetMode").2 { name := "WidgetMode", value := "\"*\"" } (by decide) (by decide)

/-- C5: for every compiled resource of a successful batch, the root struct
as the renderer emits it contains only fields whose source key is `spec`
or `status` — and every such field of the prepared root is kept. -/
theorem C5_root_contains_only_spec_status (dig : String → String) (crds : List CRD)
    (version : String) (pointerVars : Bool) (res : CustomResources)
    (_hp : Parse dig crds version pointerVars = some (.ok res)) :
    ∀ cr ∈ res.items, ∀ rootSd, cr.root = some rootSd →
      (∀ f ∈ rootFieldsForRender rootSd, f.jsonTag = "spec" ∨ f.jsonTag = "status") ∧
      (∀ f ∈ (prepare rootSd).fields, (f.jsonTag = "spec" ∨ f.jsonTag = "status") →
        f ∈ rootFieldsForRender rootSd) := by
  intro cr _ rootSd _
  constructor
  · intro f hf
    unfold rootFieldsForRender at hf
    have := List.mem_filter.mp hf
    rcases this with ⟨_, hpred⟩
    simp only [Bool.or_eq_true, beq_iff_eq] at hpred
    exact hpred
  · intro f hf htag
    unfold rootFieldsForRender
    refine List.mem_filter.mpr ⟨hf, ?_⟩
    simp only [Bool.or_eq_true, beq_iff_eq]
    exact htag

/-- C5 witness: the claim applied to the minimal compiled batch. -/
theorem C5_root_contains_only_spec_status_witness :
    (rootFieldsForRender emptyRootSd).all
      (fun f => decide (f.jsonTag = "spec" ∨ f.jsonTag = "status")) = true := by
  have h := C5_root_contains_only_spec_status idDigest [crdEmptySchema] "" false
    resEmptySchema (by decide) crEmptyCompiled (by decide) emptyRootSd rfl
  exact List.all_eq_true.mpr (fun f hf => decide_eq_true (h.1 f hf))

/-- C9 counterexample: with pointer output requested, the scalar root
field `foo` (type `string`) keeps its non-pointer type: the pointer pass
iterates only `item.Structs` and never touches the root struct, while the
claim requires every scalar-typed field to be rewritten to `*string`. -/
theorem C9_root_scalar_field_not_pointerized :
    (match Parse idDigest [crdRootScalar] "" true with
     | some (.ok res) =>
       match res.items with
       | [cr] => (cr.root.map (fun (sd : StructDef) =>
           sd.fields.map (fun (f : FieldDef) => (f.name, f.typ))),
           (cr.structs.lookup "WidgetSpec").map (fun (sd : StructDef) =>
             sd.fields.map (fun (f : FieldDef) => (f.name, f.typ))))
       | _ => (none, none)
     | _ => (none, none))
      = (some [("Foo", "string"), ("Spec", "WidgetSpec")],
         some [("Replicas", "*int32")]) ∧
    "string" ≠ "*" ++ "string" := by
  exact ⟨by decide, by decide⟩

/-- C9 (amended): pointer output reruns the same compilation and then
rewrites only the fields of the structs held in `item.Structs`: a
bracket-free type is prefixed with `*`, a slice type `[]T` becomes `[]*T`,
a map type `map[string]T` becomes `map[string]*T`; field names, JSON tags,
descriptions and enum data are untouched, and the root struct is skipped
entirely. -/
theorem C9_pointer_pass_shape (dig : String → String) (crds : List CRD)
    (version : String) :
    (Parse dig crds version true = (Parse dig crds version false).map
      (Except.map (fun res => { res with items := res.items.map pointerizeCR }))) ∧
    (∀ cr : CustomResource, (pointerizeCR cr).root = cr.root ∧
      (pointerizeCR cr).structs = cr.structs.map pointerizeStructEntry) ∧
    (∀ f : FieldDef, containsRBracket f.typ = false →
      pointerizeField f = { f with typ := "*" ++ f.typ }) ∧
    (∀ (f : FieldDef) (t : String), f.typ = "[]" ++ t →
      (pointerizeField f).typ = "[]*" ++ t) ∧
    (∀ (f : FieldDef) (t : String), f.typ = "map[string]" ++ t →
      (pointerizeField f).typ = "map[string]*" ++ t) ∧
    (∀ f : FieldDef, (pointerizeField f).name = f.name ∧
      (pointerizeField f).jsonTag = f.jsonTag ∧
      (pointerizeField f).description = f.description ∧
      (pointerizeField f).enums = f.enums ∧
      (pointerizeField f).enumName = f.enumName ∧
      (pointerizeField f).enumType = f.enumType) := by
  refine ⟨?_, ?_, ?_, ?_, ?_, ?_⟩
  · unfold Parse
    cases parseLoop dig version crds 0 ""
        { items := [], names := [], group := "", version := version, reg := emptyRegistry } with
    | none => rfl
    | some r =>
      cases r with
      | error e => rfl
      | ok st => rfl
  · intro cr
    exact ⟨rfl, rfl⟩
  · intro f hf
    unfold pointerizeField
    rw [hf]
    rfl
  · intro f t hf
    unfold pointerizeField containsRBracket
    rw [hf]
    have hdata : ("[]" ++ t).data = '[' :: ']' :: t.data := rfl
    rw [if_pos (by rw [hdata]; simp)]
    unfold replaceFirstRBracket
    rw [hdata]
    unfold replaceFirstRBracketAux
    rw [if_neg (by decide)]
    unfold replaceFirstRBracketAux
    rw [if_pos rfl]
    rfl
  · intro f t hf
    unfold pointerizeField containsRBracket
    rw [hf]
    have hdata : ("map[string]" ++ t).data =
        'm' :: 'a' :: 'p' :: '[' :: 's' :: 't' :: 'r' :: 'i' :: 'n' :: 'g' :: ']' :: t.data := rfl
    rw [if_pos (by rw [hdata]; simp)]
    unfold replaceFirstRBracket
    rw [hdata]
    simp only [replaceFirstRBracketAux, if_neg (by decide : ¬('m' = ']')),
      if_neg (by decide : ¬('a' = ']')), if_neg (by decide : ¬('p' = ']')),
      if_neg (by decide : ¬('[' = ']')), if_neg (by decide : ¬('s' = ']')),
      if_neg (by decide : ¬('t' = ']')), if_neg (by decide : ¬('r' = ']')),
      if_neg (by decide : ¬('i' = ']')), if_neg (by decide : ¬('n' = ']')),
      if_neg (by decide : ¬('g' = ']')), if_pos (rfl : (']' : Char) = ']')]
    rfl
  · intro f
    unfold pointerizeField
    split <;> exact ⟨rfl, rfl, rfl, rfl, rfl, rfl⟩

/-- C9 amended-claim witness: a scalar field is pointerized. -/
theorem C9_pointer_pass_shape_witness :
    pointerizeField fieldReplicas = { fieldReplicas with typ := "*int32" } :=
  (C9_pointer_pass_shape idDigest [] "").2.2.1 fieldReplicas (by decide)

set_option maxRecDepth 16000 in
/-- C7 counterexample: a nested object exactly matching the 5-field
Condition shape is synthesized as a new batch-local struct (here named
`ConditionsA`, found in the resource's struct map), not mapped to a shared
external Condition type — the source has no Condition recognition at
all. -/
theorem C7_condition_shape_is_synthesized :
    isConditionShape conditionSchema ∧
    (match Parse idDigest [crdConditions] "" false with
     | some (.ok res) =>
       match res.items with
       | [cr] => (cr.structs.lookup "ConditionsA").isSome
       | _ => false
     | _ => false) = true := by
  constructor
  · refine ⟨rfl, by decide, ?_, ?_, ?_⟩
    · intro e he
      fin_cases he <;> simp [Schema.typ, sStr]
    · intro e he
      fin_cases he <;> simp [Schema.format, sStr]
    · intro e he
      fin_cases he <;> simp [Schema.enum, sStr]
  · decide

set_option maxRecDepth 16000 in
/-- C7 (amended): a Condition-shape object is handled by the generic
object path: the first occurrence synthesizes one batch-local struct and a
sibling occurrence of the same shape reuses its name through signature
dedup — two array-of-Condition-shape fields both compile to
`[]ConditionsA` and exactly one struct is synthesized for the shape
(plus the enclosing `WidgetStatus`). -/
theorem C7_condition_shape_deduplicated :
    (match Parse idDigest [crdConditions] "" false with
     | some (.ok res) =>
       match res.items with
       | [cr] => some (cr.structs.map Prod.fst,
           (cr.structs.lookup "WidgetStatus").map (fun (sd : StructDef) =>
             sd.fields.map (fun (f : FieldDef) => (f.name, f.typ))))
       | _ => none
     | _ => none)
      = some (["WidgetStatus", "ConditionsA"],
          some [("ConditionsA", "[]ConditionsA"), ("ConditionsB", "[]ConditionsA")]) := by
  decide

/-! ## C10: the `Items.Schema` nil-dereference precondition -/

theorem Schema.size_pos (s : Schema) : 1 ≤ s.size := by
  cases s with
  | mk t f d r props items addP e =>
    unfold Schema.size
    omega

theorem sizePropsList_cons (k : String) (v : Schema) (rest : List (String × Schema)) :
    sizePropsList ((k, v) :: rest) = 1 + v.size + sizePropsList rest := rfl

theorem size_mk_eq (t f d : String) (r : Option String) (props : List (String × Schema))
    (items addP : Option (Option Schema)) (e : List String) :
    (Schema.mk t f d r props items addP e).size =
      1 + sizePropsList props + sizeNodeOpt items + sizeNodeOpt addP := rfl

theorem sizeNodeOpt_some (t : Schema) : sizeNodeOpt (some (some t)) = 1 + t.size := rfl

theorem sizePropsList_mem {l : List (String × Schema)} {e : String × Schema}
    (he : e ∈ l) : e.2.size + 1 ≤ sizePropsList l := by
  induction l with
  | nil => cases he
  | cons a rest ih =>
    cases a with
    | mk k v =>
      rw [sizePropsList_cons]
      rcases List.mem_cons.mp he with heq | hmem
      · subst heq
        dsimp only
        omega
      · have := ih hmem
        omega

theorem size_properties_le (s : Schema) : sizePropsList s.properties + 1 ≤ s.size := by
  cases s with
  | mk t f d r props items addP e =>
    rw [size_mk_eq]
    show sizePropsList props + 1 ≤ _
    omega

theorem size_items_child {p : Schema} {t : Schema} (ht : p.items = some (some t)) :
    t.size + 1 ≤ p.size := by
  cases p with
  | mk ty f d r props items addP e =>
    have hit : items = some (some t) := ht
    subst hit
    rw [size_mk_eq, sizeNodeOpt_some]
    omega

theorem mem_sortByKey {l : List (String × Schema)} {e : String × Schema}
    (he : e ∈ sortByKey l) : e ∈ l :=
  (List.perm_insertionSort keyLe l).mem_iff.mp he

theorem itemsOkPropsWith_mem {check : Schema → Bool} {l : List (String × Schema)}
    (h : itemsOkPropsWith check l = true) {e : String × Schema} (he : e ∈ l) :
    e.2.items ≠ some none ∧ check e.2 = true ∧
    ∀ t, e.2.items = some (some t) → check t = true := by
  induction l with
  | nil => cases he
  | cons a rest ih =>
    cases a with
    | mk k v =>
      unfold itemsOkPropsWith at h
      simp only [Bool.and_eq_true] at h
      rcases h with ⟨⟨⟨hni, hrec⟩, hchild⟩, hrest⟩
      rcases List.mem_cons.mp he with heq | hmem
      · subst heq
        refine ⟨?_, hrec, ?_⟩
        · intro hcontra
          rw [hcontra] at hni
          exact Bool.noConfusion hni
        · intro t ht
          rw [ht] at hchild
          exact hchild
      · exact ih hrest hmem

theorem generateStructPropertyG_isSome {dig : String → String} {recur} {fuel : Nat}
    (hrecOk : ∀ (sch : Schema) (reg : Registry) (cr : CustomResource) (n p : String),
      sch.size ≤ fuel → itemsOkF fuel sch = true →
        (recur reg sch cr n p false).isSome = true)
    {reg : Registry} {cr : CustomResource} {prop : Schema}
    {fieldName path propName : String} {root : Bool}
    (hsz : prop.size ≤ fuel) (hok : itemsOkF fuel prop = true) :
    (generateStructPropertyG dig recur reg cr prop fieldName path propName root).isSome
      = true := by
  unfold generateStructPropertyG
  cases hl : lookupHash reg (getHashProps dig prop.properties) with
  | some ft => simp [hl]
  | none =>
    simp only [hl]
    cases hnu : newUniqFieldName dig cr.kind reg fieldName root path with
    | mk uniq nreg =>
    have hrec2 := hrecOk prop (addHash nreg (getHashProps dig prop.properties) uniq)
      cr uniq (path ++ "." ++ propName) hsz hok
    cases hrc : recur (addHash nreg (getHashProps dig prop.properties) uniq) prop cr uniq
        (path ++ "." ++ propName) false with
    | none =>
      rw [hrc] at hrec2
      exact absurd hrec2 (by simp)
    | some out =>
      rcases out with ⟨r2, c2⟩
      simp [hrc]

theorem propStepA_isSome {dig : String → String} {recur} {fuel : Nat}
    (hrecOk : ∀ (sch : Schema) (reg : Registry) (cr : CustomResource) (n p : String),
      sch.size ≤ fuel → itemsOkF fuel sch = true →
        (recur reg sch cr n p false).isSome = true)
    {reg : Registry} {cr : CustomResource} {prop : Schema}
    {fieldName path propName : String} {root : Bool}
    (hsz : prop.size ≤ fuel) (hok : itemsOkF fuel prop = true)
    (hchild : ∀ t, prop.items = some (some t) → itemsOkF fuel t = true ∧ t.size ≤ fuel) :
    (propStepA dig recur reg cr prop fieldName path propName root).isSome = true := by
  unfold propStepA
  split
  · split
    · split
      · exact generateStructPropertyG_isSome hrecOk hsz hok
      · split
        · rfl
        · rfl
    · split
      · cases hi : prop.items with
        | none => simp [hi]
        | some oi =>
          cases oi with
          | none => simp [hi]
          | some t =>
            simp only [hi]
            split
            · have hc := hchild t hi
              have hg : (generateStructPropertyG dig recur reg cr t fieldName path
                  propName root).isSome = true :=
                generateStructPropertyG_isSome hrecOk hc.2 hc.1
              cases hgp : generateStructPropertyG dig recur reg cr t fieldName path
                  propName root with
              | none => rw [hgp] at hg; exact absurd hg (by simp)
              | some out =>
                rcases out with ⟨ft1, r1, c1⟩
                simp [hgp]
            · rfl
      · rfl
  · split
    · rfl
    · rfl

theorem propStepB_isSome {dig : String → String} {kind : String} {reg1 : Registry}
    {prop : Schema} {fieldName path ft0 : String} {field0 : FieldDef}
    (hni : prop.items ≠ some none) :
    (propStepB dig kind reg1 prop fieldName path ft0 field0).isSome = true := by
  unfold propStepB
  cases hi : prop.items with
  | none =>
    simp only [hi]
    split
    · cases generateEnumStruct dig kind reg1 prop fieldName field0 path with
      | mk ft rest => rfl
    · rfl
  | some oi =>
    cases oi with
    | none => exact absurd hi hni
    | some t =>
      simp only [hi]
      split
      · cases generateEnumStruct dig kind reg1 t fieldName field0 path with
        | mk ft rest => rfl
      · split
        · cases generateEnumStruct dig kind reg1 prop fieldName field0 path with
          | mk ft rest => rfl
        · rfl

theorem goProps_isSome {dig : String → String} {recur} {fuel : Nat}
    (hrecOk : ∀ (sch : Schema) (reg : Registry) (cr : CustomResource) (n p : String),
      sch.size ≤ fuel → itemsOkF fuel sch = true →
        (recur reg sch cr n p false).isSome = true) :
    ∀ (l : List (String × Schema)) (reg : Registry) (cr : CustomResource)
      (path : String) (root : Bool),
      (∀ e ∈ l, e.2.size ≤ fuel ∧ itemsOkF fuel e.2 = true ∧ e.2.items ≠ some none ∧
        ∀ t, e.2.items = some (some t) → itemsOkF fuel t = true ∧ t.size ≤ fuel) →
      (goProps dig recur reg cr path root l).isSome = true := by
  intro l
  induction l with
  | nil => intro reg cr path root _; rfl
  | cons e rest ih =>
    intro reg cr path root hall
    rcases e with ⟨propName, prop⟩
    have he := hall (propName, prop) (List.mem_cons_self _ _)
    unfold goProps
    have hA : (propStepA dig recur reg cr prop (ToCamelCase propName) path propName
        root).isSome = true := propStepA_isSome hrecOk he.1 he.2.1 he.2.2.2
    cases hAe : propStepA dig recur reg cr prop (ToCamelCase propName) path propName root with
    | none => rw [hAe] at hA; exact absurd hA (by simp)
    | some outA =>
      rcases outA with ⟨ft0, reg1, cr1⟩
      simp only [hAe]
      have hB : (propStepB dig cr1.kind reg1 prop (ToCamelCase propName) path ft0
          { name := ToCamelCase propName, typ := "", jsonTag := propName,
            description := prop.descr, enums := [], enumName := "",
            enumType := "" }).isSome = true := propStepB_isSome he.2.2.1
      cases hBe : propStepB dig cr1.kind reg1 prop (ToCamelCase propName) path ft0
          { name := ToCamelCase propName, typ := "", jsonTag := propName,
            description := prop.descr, enums := [], enumName := "", enumType := "" } with
      | none => rw [hBe] at hB; exact absurd hB (by simp)
      | some outB =>
        rcases outB with ⟨ftF, fieldF, regF⟩
        simp only [hBe]
        have hR := ih regF cr1 path root (fun e hme => hall e (List.mem_cons_of_mem _ hme))
        cases hRe : goProps dig recur regF cr1 path root rest with
        | none => rw [hRe] at hR; exact absurd hR (by simp)
        | some outR =>
          rcases outR with ⟨regR, crR, fieldsR⟩
          simp [hRe]

theorem generateStructsF_isSome (dig : String → String) :
    ∀ (fuel : Nat) (s : Schema) (reg : Registry) (cr : CustomResource)
      (n p : String) (r : Bool), s.size ≤ fuel → itemsOkF fuel s = true →
      (generateStructsF dig fuel reg s cr n p r).isSome = true := by
  intro fuel
  induction fuel with
  | zero =>
    intro s reg cr n p r hsz _
    have := Schema.size_pos s
    omega
  | succ fuel ih =>
    intro s reg cr n p r hsz hok
    unfold generateStructsF
    have hokp : itemsOkPropsWith (itemsOkF fuel) s.properties = true := by
      unfold itemsOkF at hok
      exact hok
    have hall : ∀ e ∈ sortByKey s.properties,
        e.2.size ≤ fuel ∧ itemsOkF fuel e.2 = true ∧ e.2.items ≠ some none ∧
        ∀ t, e.2.items = some (some t) → itemsOkF fuel t = true ∧ t.size ≤ fuel := by
      intro e he
      have hm := mem_sortByKey he
      have hprops := itemsOkPropsWith_mem hokp hm
      have hszl := sizePropsList_mem hm
      have hszp := size_properties_le s
      have hesz : e.2.size ≤ fuel := by omega
      refine ⟨hesz, hprops.2.1, hprops.1, ?_⟩
      intro t ht
      have hts := size_items_child ht
      exact ⟨hprops.2.2 t ht, by omega⟩
    have hrecOk : ∀ (sch : Schema) (reg2 : Registry) (cr2 : CustomResource) (n2 p2 : String),
        sch.size ≤ fuel → itemsOkF fuel sch = true →
          (generateStructsF dig fuel reg2 sch cr2 n2 p2 false).isSome = true := by
      intro sch reg2 cr2 n2 p2 hs2 ho2
      exact ih sch reg2 cr2 n2 p2 false hs2 ho2
    have hgo : (goProps dig (generateStructsF dig fuel) reg cr p r
        (sortByKey s.properties)).isSome = true :=
      goProps_isSome hrecOk (sortByKey s.properties) reg cr p r hall
    cases hge : goProps dig (generateStructsF dig fuel) reg cr p r (sortByKey s.properties) with
    | none => rw [hge] at hgo; exact absurd hgo (by simp)
    | some out =>
      rcases out with ⟨reg3, cr3, fields⟩
      simp only [hge]
      cases r with
      | true => simp
      | false => simp

/-- C10: the property loop evaluates `prop.Items.Schema.Enum` whenever
`Items` is non-nil, without checking that its `Schema` pointer is non-nil;
compilation therefore completes without the nil-pointer dereference
whenever every property with a non-nil `Items` node carries a non-nil
single `Schema` (`itemsOk`), and a single property whose `items` is a
schema array (`Items` non-nil, `Schema` nil) makes the whole compilation
panic. -/
theorem C10_items_schema_nil_guard :
    (∀ (dig : String → String) (reg : Registry) (cr : CustomResource)
      (n p : String) (r : Bool) (s : Schema), itemsOk s = true →
        (generateStructs dig reg s cr n p r).isSome = true) ∧
    generateStructs idDigest emptyRegistry schemaBadItems witnessCR "Widget" "Widget"
      true = none := by
  constructor
  · intro dig reg cr n p r s hok
    unfold generateStructs
    exact generateStructsF_isSome dig s.size s reg cr n p r (Nat.le_refl _) hok
  · decide

/-- C10 witness: a well-formed schema compiles without the panic. -/
theorem C10_items_schema_nil_guard_witness :
    (generateStructs idDigest emptyRegistry schemaA witnessCR "Widget" "Widget"
      true).isSome = true :=
  C10_items_schema_nil_guard.1 idDigest emptyRegistry witnessCR "Widget" "Widget"
    true schemaA (by decide)

/-! ## C6: batch group/version consistency -/

theorem parseSingleCRD_ok {dig : String → String} {reg : Registry} {crd : CRD}
    {desired : String} {reg2 : Registry} {cr2 : CustomResource}
    (h : parseSingleCRD dig reg crd desired = some (.ok (reg2, cr2))) :
    cr2.kind = crd.kind ∧ cr2.group = crd.group ∧ cr2.list = crd.listKind ∧
    ∃ v ∈ crd.versions, v.storage = true ∧ v.name = cr2.version := by
  unfold parseSingleCRD at h
  cases he : extractSchemas crd desired with
  | error e =>
    rw [he] at h
    simp at h
  | ok pair =>
    rcases pair with ⟨schema, ver⟩
    rw [he] at h
    dsimp only at h
    cases hg : generateStructs dig reg schema
        { kind := crd.kind, plural := crd.plural, list := crd.listKind,
          group := crd.group, version := ver, root := none, structs := [],
          imports := [metav1Import] }
        crd.kind crd.kind true with
    | none =>
      rw [hg] at h
      simp at h
    | some out =>
      rcases out with ⟨reg3, cr3⟩
      rw [hg] at h
      cases h
      have hid : crIdEq
          { kind := crd.kind, plural := crd.plural, list := crd.listKind,
            group := crd.group, version := ver, root := none, structs := [],
            imports := [metav1Import] } cr2 :=
        ((generateStructsF_stepLe dig schema.size) _ _ _ _ _ _ _ _ hg).2.2
      unfold extractSchemas at he
      cases hf : crd.versions.find?
          (fun v => v.storage && (desired == "" || desired == v.name)) with
      | none => rw [hf] at he; simp at he
      | some v =>
        rw [hf] at he
        simp only [Except.ok.injEq] at he
        have hmem := List.mem_of_find?_eq_some hf
        have hpred := List.find?_some hf
        simp only [Bool.and_eq_true] at hpred
        have hv : v.name = ver := by
          cases he with
          | refl => rfl
        refine ⟨hid.1, hid.2.2.2.1, hid.2.2.1, v, hmem, hpred.1, ?_⟩
        rw [hv]
        have := hid.2.2.2.2
        rw [this]

theorem parseSingleCRD_pinned {dig : String → String} {reg : Registry} {crd : CRD}
    {desired : String} {reg2 : Registry} {cr2 : CustomResource}
    (hdes : desired ≠ "")
    (h : parseSingleCRD dig reg crd desired = some (.ok (reg2, cr2))) :
    cr2.version = desired := by
  unfold parseSingleCRD at h
  cases he : extractSchemas crd desired with
  | error e =>
    rw [he] at h
    simp at h
  | ok pair =>
    rcases pair with ⟨schema, ver⟩
    rw [he] at h
    dsimp only at h
    cases hg : generateStructs dig reg schema
        { kind := crd.kind, plural := crd.plural, list := crd.listKind,
          group := crd.group, version := ver, root := none, structs := [],
          imports := [metav1Import] }
        crd.kind crd.kind true with
    | none =>
      rw [hg] at h
      simp at h
    | some out =>
      rcases out with ⟨reg3, cr3⟩
      rw [hg] at h
      cases h
      have hid : crIdEq
          { kind := crd.kind, plural := crd.plural, list := crd.listKind,
            group := crd.group, version := ver, root := none, structs := [],
            imports := [metav1Import] } cr2 :=
        ((generateStructsF_stepLe dig schema.size) _ _ _ _ _ _ _ _ hg).2.2
      unfold extractSchemas at he
      cases hf : crd.versions.find?
          (fun v => v.storage && (desired == "" || desired == v.name)) with
      | none => rw [hf] at he; simp at he
      | some v =>
        rw [hf] at he
        have hpred := List.find?_some hf
        simp only [Bool.and_eq_true, Bool.or_eq_true, beq_iff_eq] at hpred
        have hv : v.name = ver := by
          cases he with
          | refl => rfl
        rcases hpred.2 with hd | hd
        · exact absurd hd hdes
        · rw [hid.2.2.2.2, ← hv, ← hd]

theorem parseSingleCRD_error {dig : String → String} {reg : Registry} {crd : CRD}
    {desired e : String}
    (h : parseSingleCRD dig reg crd desired = some (.error e)) : e = desired := by
  unfold parseSingleCRD at h
  cases he : extractSchemas crd desired with
  | error e2 =>
    rw [he] at h
    simp only [Option.some.injEq, Except.error.injEq] at h
    unfold extractSchemas at he
    cases hf : crd.versions.find?
        (fun v => v.storage && (desired == "" || desired == v.name)) with
    | some v => rw [hf] at he; simp at he
    | none =>
      rw [hf] at he
      simp only [Except.error.injEq] at he
      rw [← h, ← he]
  | ok pair =>
    rcases pair with ⟨schema, ver⟩
    rw [he] at h
    dsimp only at h
    cases hg : generateStructs dig reg schema
        { kind := crd.kind, plural := crd.plural, list := crd.listKind,
          group := crd.group, version := ver, root := none, structs := [],
          imports := [metav1Import] }
        crd.kind crd.kind true with
    | none => rw [hg] at h; simp at h
    | some out =>
      rcases out with ⟨reg3, cr3⟩
      rw [hg] at h
      simp at h

theorem parseLoop_ok_groups (dig : String → String) (ver : String) :
    ∀ (crds : List CRD) (i : Nat) (kind : String) (st stF : BatchState),
      1 ≤ i → parseLoop dig ver crds i kind st = some (.ok stF) →
      (∀ c ∈ crds, c.group = st.group) ∧ stF.group = st.group := by
  intro crds
  induction crds with
  | nil =>
    intro i kind st stF _ h
    unfold parseLoop at h
    cases h
    exact ⟨fun c hc => absurd hc (List.not_mem_nil c), rfl⟩
  | cons crd rest ih =>
    intro i kind st stF hi h
    unfold parseLoop at h
    cases hp : parseSingleCRD dig st.reg crd st.version with
    | none => rw [hp] at h; exact Option.noConfusion h
    | some r =>
      cases r with
      | error e => rw [hp] at h; simp at h
      | ok out =>
        rcases out with ⟨reg2, cr⟩
        rw [hp] at h
        dsimp only at h
        by_cases hc1 : 0 < i ∧ st.group ≠ cr.group
        · rw [if_pos hc1] at h; simp at h
        · rw [if_neg hc1] at h
          by_cases hc2 : ver ≠ "" ∧ ver ≠ cr.version
          · rw [if_pos hc2] at h; simp at h
          · rw [if_neg hc2] at h
            have hgr : st.group = cr.group := by
              by_contra hne
              exact hc1 ⟨hi, hne⟩
            have hrec := ih (i + 1) cr.kind _ stF (by omega) h
            have hcrd := parseSingleCRD_ok hp
            refine ⟨?_, ?_⟩
            · intro c hc
              rcases List.mem_cons.mp hc with heq | hmem
              · subst heq
                rw [← hcrd.2.1, ← hgr]
              · have := hrec.1 c hmem
                rw [this]
                exact hgr.symm
            · rw [hrec.2]
              exact hgr.symm

theorem parseLoop_ok_items (dig : String → String) (ver : String) :
    ∀ (crds : List CRD) (i : Nat) (kind : String) (st stF : BatchState),
      parseLoop dig ver crds i kind st = some (.ok stF) →
      ∃ newItems, stF.items = st.items ++ newItems ∧
        List.Forall₂ (crMatches ver) newItems crds := by
  intro crds
  induction crds with
  | nil =>
    intro i kind st stF h
    unfold parseLoop at h
    cases h
    exact ⟨[], by simp, List.Forall₂.nil⟩
  | cons crd rest ih =>
    intro i kind st stF h
    unfold parseLoop at h
    cases hp : parseSingleCRD dig st.reg crd st.version with
    | none => rw [hp] at h; exact Option.noConfusion h
    | some r =>
      cases r with
      | error e => rw [hp] at h; simp at h
      | ok out =>
        rcases out with ⟨reg2, cr⟩
        rw [hp] at h
        dsimp only at h
        by_cases hc1 : 0 < i ∧ st.group ≠ cr.group
        · rw [if_pos hc1] at h; simp at h
        · rw [if_neg hc1] at h
          by_cases hc2 : ver ≠ "" ∧ ver ≠ cr.version
          · rw [if_pos hc2] at h; simp at h
          · rw [if_neg hc2] at h
            rcases ih (i + 1) cr.kind _ stF h with ⟨rest2, hitems, hfa⟩
            have hcrd := parseSingleCRD_ok hp
            refine ⟨cr :: rest2, ?_, ?_⟩
            · rw [hitems]
              simp
            · refine List.Forall₂.cons ⟨hcrd.1, hcrd.2.1, ?_⟩ hfa
              rcases hcrd.2.2.2 with ⟨v, hvm, hvs, hvn⟩
              refine ⟨v, hvm, hvs, hvn, ?_⟩
              intro hv
              rcases not_and_or.mp hc2 with hd | hd
              · exact absurd hv hd
              · exact (not_not.mp hd).symm

theorem parseLoop_groupMismatch (dig : String → String) (ver : String) :
    ∀ (crds : List CRD) (i : Nat) (kind : String) (st : BatchState)
      (ga ka gb kb : String),
      parseLoop dig ver crds i kind st = some (.error (.groupMismatch ga ka gb kb)) →
      ga ≠ gb := by
  intro crds
  induction crds with
  | nil =>
    intro i kind st ga ka gb kb h
    unfold parseLoop at h
    simp at h
  | cons crd rest ih =>
    intro i kind st ga ka gb kb h
    unfold parseLoop at h
    cases hp : parseSingleCRD dig st.reg crd st.version with
    | none => rw [hp] at h; exact Option.noConfusion h
    | some r =>
      cases r with
      | error e => rw [hp] at h; simp at h
      | ok out =>
        rcases out with ⟨reg2, cr⟩
        rw [hp] at h
        dsimp only at h
        by_cases hc1 : 0 < i ∧ st.group ≠ cr.group
        · rw [if_pos hc1] at h
          simp only [Option.some.injEq, Except.error.injEq,
            ParseErr.groupMismatch.injEq] at h
          rcases h with ⟨hga, _, hgb, _⟩
          rw [← hga, ← hgb]
          exact hc1.2
        · rw [if_neg hc1] at h
          by_cases hc2 : ver ≠ "" ∧ ver ≠ cr.version
          · rw [if_pos hc2] at h; simp at h
          · rw [if_neg hc2] at h
            exact ih (i + 1) cr.kind _ ga ka gb kb h

theorem parseLoop_crdError (dig : String → String) (ver : String) (hver : ver ≠ "") :
    ∀ (crds : List CRD) (i : Nat) (kind : String) (st : BatchState) (d : String),
      st.version = ver →
      parseLoop dig ver crds i kind st = some (.error (.crdError d)) → d = ver := by
  intro crds
  induction crds with
  | nil =>
    intro i kind st d _ h
    unfold parseLoop at h
    simp at h
  | cons crd rest ih =>
    intro i kind st d hstv h
    unfold parseLoop at h
    cases hp : parseSingleCRD dig st.reg crd st.version with
    | none => rw [hp] at h; exact Option.noConfusion h
    | some r =>
      cases r with
      | error e =>
        rw [hp] at h
        simp only [Option.some.injEq, Except.error.injEq, ParseErr.crdError.injEq] at h
        have := parseSingleCRD_error hp
        rw [← h, this, hstv]
      | ok out =>
        rcases out with ⟨reg2, cr⟩
        rw [hp] at h
        dsimp only at h
        by_cases hc1 : 0 < i ∧ st.group ≠ cr.group
        · rw [if_pos hc1] at h; simp at h
        · rw [if_neg hc1] at h
          by_cases hc2 : ver ≠ "" ∧ ver ≠ cr.version
          · rw [if_pos hc2] at h; simp at h
          · rw [if_neg hc2] at h
            have hcv : cr.version = ver := by
              rcases not_and_or.mp hc2 with hd | hd
              · exact absurd hver hd
              · exact (not_not.mp hd).symm
            exact ih (i + 1) cr.kind _ d (by simpa using hcv) h

/-- C6 counterexample: both CRDs share one group, the pinned version `v2`
is exposed by the second CRD (kind `Beta`) but not as its storage version;
the batch fails through the "Error parsing crd" path, whose diagnostic
carries only the requested version string and names neither resource
kind — while the claim requires a version-mismatch diagnostic naming both
offending kinds. -/
theorem C6_version_mismatch_diagnostic_lacks_kinds :
    Parse idDigest [crdStorageV2, crdStorageV1] "v2" false =
      some (.error (.crdError "v2")) := by
  decide

/-- C6 (amended): a successful batch guarantees that all CRDs share the
final API group and that every compiled resource answers for its CRD with
a storage-flagged version equal to the pinned version when one is given;
a group mismatch fails the batch with a diagnostic whose two group fields
genuinely disagree (and which names both kinds); a pinned-version mismatch
fails the batch through schema extraction with a diagnostic carrying
exactly the pinned version string and no resource kinds. -/
theorem C6_batch_group_version_consistency (dig : String → String)
    (crds : List CRD) (ver : String) (pv : Bool) :
    (∀ res : CustomResources, Parse dig crds ver pv = some (.ok res) →
      (∀ c ∈ crds, c.group = res.group) ∧
      List.Forall₂ (crMatches ver) res.items crds) ∧
    (∀ ga ka gb kb : String,
      Parse dig crds ver pv = some (.error (.groupMismatch ga ka gb kb)) → ga ≠ gb) ∧
    (ver ≠ "" → ∀ d : String,
      Parse dig crds ver pv = some (.error (.crdError d)) → d = ver) := by
  refine ⟨?_, ?_, ?_⟩
  · intro res hres
    unfold Parse at hres
    cases hl : parseLoop dig ver crds 0 ""
        { items := [], names := [], group := "", version := ver, reg := emptyRegistry } with
    | none => rw [hl] at hres; exact Option.noConfusion hres
    | some r =>
      cases r with
      | error e => rw [hl] at hres; simp at hres
      | ok stF =>
        rw [hl] at hres
        dsimp only at hres
        have hgroups : ∀ c ∈ crds, c.group = stF.group := by
          cases crds with
          | nil => intro c hc; exact absurd hc (List.not_mem_nil c)
          | cons crd rest =>
            unfold parseLoop at hl
            cases hp : parseSingleCRD dig emptyRegistry crd ver with
            | none => rw [hp] at hl; exact Option.noConfusion hl
            | some r2 =>
              cases r2 with
              | error e => rw [hp] at hl; simp at hl
              | ok out =>
                rcases out with ⟨reg2, cr⟩
                rw [hp] at hl
                dsimp only at hl
                rw [if_neg (by simp)] at hl
                by_cases hc2 : ver ≠ "" ∧ ver ≠ cr.version
                · rw [if_pos hc2] at hl; simp at hl
                · rw [if_neg hc2] at hl
                  have hrec := parseLoop_ok_groups dig ver rest 1 cr.kind _ stF
                    (Nat.le_refl 1) hl
                  dsimp only at hrec
                  have hcrd := parseSingleCRD_ok hp
                  intro c hc
                  rcases List.mem_cons.mp hc with heq | hmem
                  · subst heq
                    rw [← hcrd.2.1]
                    exact hrec.2.symm
                  · have hcg := hrec.1 c hmem
                    rw [hcg]
                    exact hrec.2.symm
        have hitems := parseLoop_ok_items dig ver crds 0 "" _ stF hl
        rcases hitems with ⟨newItems, hni, hfa⟩
        simp only [List.nil_append] at hni
        subst hni
        cases pv with
        | false =>
          cases hres
          exact ⟨hgroups, hfa⟩
        | true =>
          cases hres
          refine ⟨hgroups, ?_⟩
          show List.Forall₂ (crMatches ver) (List.map pointerizeCR stF.items) crds
          rw [List.forall₂_map_left_iff]
          exact hfa
  · intro ga ka gb kb hres
    unfold Parse at hres
    cases hl : parseLoop dig ver crds 0 ""
        { items := [], names := [], group := "", version := ver, reg := emptyRegistry } with
    | none => rw [hl] at hres; exact Option.noConfusion hres
    | some r =>
      cases r with
      | ok stF => rw [hl] at hres; simp at hres
      | error e =>
        rw [hl] at hres
        dsimp only at hres
        have he : e = ParseErr.groupMismatch ga ka gb kb := by
          cases hres with
          | refl => rfl
        subst he
        exact parseLoop_groupMismatch dig ver crds 0 "" _ ga ka gb kb hl
  · intro hver d hres
    unfold Parse at hres
    cases hl : parseLoop dig ver crds 0 ""
        { items := [], names := [], group := "", version := ver, reg := emptyRegistry } with
    | none => rw [hl] at hres; exact Option.noConfusion hres
    | some r =>
      cases r with
      | ok stF => rw [hl] at hres; simp at hres
      | error e =>
        rw [hl] at hres
        dsimp only at hres
        have he : e = ParseErr.crdError d := by
          cases hres with
          | refl => rfl
        subst he
        exact parseLoop_crdError dig ver hver crds 0 "" _ d rfl hl

/-- C6 amended-claim witness: a consistent two-CRD batch compiles and both
resources carry the shared group. -/
theorem C6_batch_group_version_consistency_witness :
    (∀ c ∈ [crdEmptySchema], c.group = resEmptySchema.group) ∧
    List.Forall₂ (crMatches "") resEmptySchema.items [crdEmptySchema] :=
  (C6_batch_group_version_consistency idDigest [crdEmptySchema] "" false).1
    resEmptySchema (by decide)

/-! ## C4: key-order independence via normalization invariance -/

theorem normalizeF_zero (s : Schema) : normalizeF 0 s = s := rfl

theorem normalizeF_succ (m : Nat) (t f d : String) (r : Option String)
    (props : List (String × Schema)) (items addP : Option (Option Schema))
    (e : List String) :
    normalizeF (m + 1) (Schema.mk t f d r props items addP e) =
      Schema.mk t f d r (sortByKey (normalizeProps m props))
        (normalizeNode m items) (normalizeNode m addP) e := rfl

theorem typ_normalizeF (m : Nat) (s : Schema) : (normalizeF m s).typ = s.typ := by
  cases m with
  | zero => rfl
  | succ m => cases s with | mk t f d r props items addP e => rfl

theorem format_normalizeF (m : Nat) (s : Schema) :
    (normalizeF m s).format = s.format := by
  cases m with
  | zero => rfl
  | succ m => cases s with | mk t f d r props items addP e => rfl

theorem descr_normalizeF (m : Nat) (s : Schema) :
    (normalizeF m s).descr = s.descr := by
  cases m with
  | zero => rfl
  | succ m => cases s with | mk t f d r props items addP e => rfl

theorem refv_normalizeF (m : Nat) (s : Schema) : (normalizeF m s).refv = s.refv := by
  cases m with
  | zero => rfl
  | succ m => cases s with | mk t f d r props items addP e => rfl

theorem enum_normalizeF (m : Nat) (s : Schema) : (normalizeF m s).enum = s.enum := by
  cases m with
  | zero => rfl
  | succ m => cases s with | mk t f d r props items addP e => rfl

theorem properties_normalizeF_succ (m : Nat) (s : Schema) :
    (normalizeF (m + 1) s).properties = sortByKey (normalizeProps m s.properties) := by
  cases s with | mk t f d r props items addP e => rfl

theorem items_normalizeF_succ (m : Nat) (s : Schema) :
    (normalizeF (m + 1) s).items = normalizeNode m s.items := by
  cases s with | mk t f d r props items addP e => rfl

theorem addProps_normalizeF_succ (m : Nat) (s : Schema) :
    (normalizeF (m + 1) s).addProps = normalizeNode m s.addProps := by
  cases s with | mk t f d r props items addP e => rfl

theorem normalizeProps_eq_map (m : Nat) :
    ∀ l : List (String × Schema),
      normalizeProps m l = l.map (fun e => (e.1, normalizeF m e.2)) := by
  intro l
  induction l with
  | nil => rfl
  | cons a rest ih =>
    cases a with
    | mk k v =>
      show (k, normalizeF m v) :: normalizeProps m rest = _
      rw [ih]
      rfl

theorem strLeB_total (a b : String) : strLeB a b = true ∨ strLeB b a = true := by
  unfold strLeB
  generalize a.data = x
  generalize b.data = y
  induction x generalizing y with
  | nil => exact Or.inl rfl
  | cons c cs ih =>
    cases y with
    | nil => exact Or.inr rfl
    | cons d ds =>
      by_cases hcd : c = d
      · subst hcd
        unfold strLeB.strLeChars
        simp only [if_pos rfl]
        exact ih ds
      · have hv : c.val ≠ d.val := fun hvv => hcd (Char.ext hvv)
        unfold strLeB.strLeChars
        rw [if_neg hcd, if_neg (fun hdc => hcd hdc.symm)]
        rcases Nat.lt_or_ge c.val.toNat d.val.toNat with hlt | hge
        · exact Or.inl (by simpa using hlt)
        · refine Or.inr ?_
          have : d.val < c.val := by
            rcases Nat.lt_or_ge d.val.toNat c.val.toNat with h2 | h2
            · simpa using h2
            · exfalso
              have hx : c.val.toNat = d.val.toNat := Nat.le_antisymm h2 hge
              exact hv (UInt32.ext hx)
          simpa using this

theorem strLeChars_trans :
    ∀ x y z : List Char, strLeB.strLeChars x y = true →
      strLeB.strLeChars y z = true → strLeB.strLeChars x z = true := by
  intro x
  induction x with
  | nil => intro y z _ _; rfl
  | cons c cs ih =>
    intro y z hxy hyz
    cases y with
    | nil => exact absurd hxy (by simp [strLeB.strLeChars])
    | cons d ds =>
      cases z with
      | nil => exact absurd hyz (by simp [strLeB.strLeChars])
      | cons e es =>
        unfold strLeB.strLeChars at hxy hyz ⊢
        by_cases hcd : c = d
        · subst hcd
          rw [if_pos rfl] at hxy
          by_cases hce : c = e
          · subst hce
            rw [if_pos rfl] at hyz
            rw [if_pos rfl]
            exact ih ds es hxy hyz
          · rw [if_neg hce] at hyz
            rw [if_neg hce]
            exact hyz
        · rw [if_neg hcd] at hxy
          have h1 : c.val.toNat < d.val.toNat := by simpa using hxy
          by_cases hde : d = e
          · subst hde
            have hce : c ≠ d := hcd
            rw [if_neg hce]
            simpa using h1
          · rw [if_neg hde] at hyz
            have h2 : d.val.toNat < e.val.toNat := by simpa using hyz
            have h3 : c.val.toNat < e.val.toNat := Nat.lt_trans h1 h2
            have hce : c ≠ e := by
              intro hq
              subst hq
              omega
            rw [if_neg hce]
            simpa using h3

theorem strLeB_trans (a b c : String) (h1 : strLeB a b = true)
    (h2 : strLeB b c = true) : strLeB a c = true :=
  strLeChars_trans a.data b.data c.data h1 h2

instance : IsTotal (String × Schema) keyLe :=
  ⟨fun a b => strLeB_total a.1 b.1⟩

instance : IsTrans (String × Schema) keyLe :=
  ⟨fun a b c h1 h2 => strLeB_trans a.1 b.1 c.1 h1 h2⟩

theorem sortByKey_idem (l : List (String × Schema)) :
    sortByKey (sortByKey l) = sortByKey l :=
  List.Sorted.insertionSort_eq (List.sorted_insertionSort keyLe l)

theorem orderedInsert_map (f : Schema → Schema) (x : String × Schema) :
    ∀ l : List (String × Schema),
      List.orderedInsert keyLe (x.1, f x.2) (l.map (fun e => (e.1, f e.2))) =
        (List.orderedInsert keyLe x l).map (fun e => (e.1, f e.2)) := by
  intro l
  induction l with
  | nil => rfl
  | cons a rest ih =>
    by_cases h : keyLe x a
    · have h1 : keyLe (x.1, f x.2) (a.1, f a.2) := h
      simp only [List.map_cons, List.orderedInsert, if_pos h1, if_pos h]
    · have h1 : ¬ keyLe (x.1, f x.2) (a.1, f a.2) := h
      simp only [List.map_cons, List.orderedInsert, if_neg h1, if_neg h, ih]

theorem sortByKey_map (f : Schema → Schema) :
    ∀ l : List (String × Schema),
      sortByKey (l.map (fun e => (e.1, f e.2))) =
        (sortByKey l).map (fun e => (e.1, f e.2)) := by
  intro l
  induction l with
  | nil => rfl
  | cons a rest ih =>
    show List.orderedInsert keyLe (a.1, f a.2)
        (List.insertionSort keyLe (rest.map (fun e => (e.1, f e.2)))) = _
    have ih2 : List.insertionSort keyLe (rest.map (fun e => (e.1, f e.2))) =
        (sortByKey rest).map (fun e => (e.1, f e.2)) := ih
    rw [ih2]
    exact orderedInsert_map f a (sortByKey rest)

theorem sizePropsList_perm {l l' : List (String × Schema)} (h : l.Perm l') :
    sizePropsList l = sizePropsList l' := by
  induction h with
  | nil => rfl
  | cons a h ih =>
    cases a with
    | mk k v => rw [sizePropsList_cons, sizePropsList_cons, ih]
  | swap a b l =>
    cases a with
    | mk k1 v1 =>
      cases b with
      | mk k2 v2 =>
        rw [sizePropsList_cons, sizePropsList_cons, sizePropsList_cons,
          sizePropsList_cons]
        omega
  | trans h1 h2 ih1 ih2 => rw [ih1, ih2]

theorem sizePropsList_sortByKey (l : List (String × Schema)) :
    sizePropsList (sortByKey l) = sizePropsList l :=
  sizePropsList_perm (List.perm_insertionSort keyLe l).symm |>.symm

theorem normalizeProps_cons (m : Nat) (k : String) (v : Schema)
    (rest : List (String × Schema)) :
    normalizeProps m ((k, v) :: rest) = (k, normalizeF m v) :: normalizeProps m rest := rfl

theorem normalizeNode_eq (m : Nat) (x : Option (Option Schema)) :
    normalizeNode m x = normalizeNodeWith (normalizeF m) x := rfl

theorem size_normalizeF (m : Nat) : ∀ s : Schema, (normalizeF m s).size = s.size := by
  induction m with
  | zero => intro s; rfl
  | succ m ih =>
    intro s
    cases s with
    | mk t f d r props items addP e =>
      rw [normalizeF_succ, size_mk_eq, size_mk_eq, sizePropsList_sortByKey]
      have h1 : ∀ l, sizePropsList (normalizeProps m l) = sizePropsList l := by
        intro l
        induction l with
        | nil => rfl
        | cons a rest ihp =>
          cases a with
          | mk k v =>
            rw [normalizeProps_cons, sizePropsList_cons, sizePropsList_cons, ih v, ihp]
      have h2 : ∀ x, sizeNodeOpt (normalizeNode m x) = sizeNodeOpt x := by
        intro x
        cases x with
        | none => rfl
        | some oi =>
          cases oi with
          | none => rfl
          | some ts =>
            show sizeNodeOpt (some (some (normalizeF m ts))) = _
            rw [sizeNodeOpt_some, sizeNodeOpt_some, ih ts]
      rw [h1, h2, h2]

theorem length_properties_normalizeF (m : Nat) (s : Schema) :
    (normalizeF m s).properties.length = s.properties.length := by
  cases m with
  | zero => rfl
  | succ m =>
    rw [properties_normalizeF_succ]
    unfold sortByKey
    rw [(List.perm_insertionSort keyLe (normalizeProps m s.properties)).length_eq,
      normalizeProps_eq_map, List.length_map]

theorem encodeEntriesWith_map (enc : Schema → String) (f : Schema → Schema)
    (h : ∀ s, enc (f s) = enc s) (l : List (String × Schema)) :
    encodeEntriesWith enc (l.map (fun e => (e.1, f e.2))) = encodeEntriesWith enc l := by
  have hm : (l.map (fun e => (e.1, f e.2))).map
        (fun e => quoteStr e.1 ++ ":" ++ enc e.2)
      = l.map (fun e => quoteStr e.1 ++ ":" ++ enc e.2) := by
    induction l with
    | nil => rfl
    | cons a rest ih => simp only [List.map_cons, ih, h]
  unfold encodeEntriesWith
  rw [hm]

theorem encodeOptNodeWith_norm (enc : Schema → String) (f : Schema → Schema)
    (h : ∀ s, enc (f s) = enc s) (x : Option (Option Schema)) :
    encodeOptNodeWith enc (normalizeNodeWith f x) = encodeOptNodeWith enc x := by
  cases x with
  | none => rfl
  | some oi =>
    cases oi with
    | none => rfl
    | some ts =>
      show "(schema:" ++ enc (f ts) ++ ")" = _
      rw [h]
      rfl

theorem encodeSchemaF_normalizeF :
    ∀ (fuel m : Nat) (s : Schema),
      encodeSchemaF fuel (normalizeF m s) = encodeSchemaF fuel s := by
  intro fuel
  induction fuel with
  | zero => intro m s; rfl
  | succ fuel ih =>
    intro m s
    cases m with
    | zero => rfl
    | succ m =>
      cases s with
      | mk t f d r props items addP e =>
        rw [normalizeF_succ]
        show "(type:" ++ quoteStr t ++ ",format:" ++ quoteStr f
            ++ ",description:" ++ quoteStr d
            ++ ",ref:" ++ (match r with | some rr => quoteStr rr | none => "null")
            ++ ",properties:" ++ encodeEntriesWith (encodeSchemaF fuel)
                (sortByKey (sortByKey (normalizeProps m props)))
            ++ ",items:" ++ encodeOptNodeWith (encodeSchemaF fuel) (normalizeNode m items)
            ++ ",additionalProperties:"
            ++ encodeOptNodeWith (encodeSchemaF fuel) (normalizeNode m addP)
            ++ ",enum:" ++ encodeEnumList e ++ ")" = _
        rw [sortByKey_idem, normalizeProps_eq_map, sortByKey_map,
          encodeEntriesWith_map (encodeSchemaF fuel) (normalizeF m) (fun s2 => ih m s2),
          normalizeNode_eq, normalizeNode_eq,
          encodeOptNodeWith_norm (encodeSchemaF fuel) (normalizeF m) (fun s2 => ih m s2),
          encodeOptNodeWith_norm (encodeSchemaF fuel) (normalizeF m) (fun s2 => ih m s2)]
        rfl

theorem mapTypeF_normalizeF :
    ∀ (fuel m : Nat) (s : Schema),
      mapTypeF fuel (normalizeF m s) = mapTypeF fuel s := by
  intro fuel
  induction fuel with
  | zero => intro m s; rfl
  | succ fuel ih =>
    intro m s
    cases m with
    | zero => rfl
    | succ m =>
      cases hit : s.items with
      | none =>
        simp only [mapTypeF, typ_normalizeF, format_normalizeF, refv_normalizeF,
          items_normalizeF_succ, hit, normalizeNode_eq, normalizeNodeWith]
      | some oi =>
        cases oi with
        | none =>
          simp only [mapTypeF, typ_normalizeF, format_normalizeF, refv_normalizeF,
            items_normalizeF_succ, hit, normalizeNode_eq, normalizeNodeWith]
        | some ts =>
          simp only [mapTypeF, typ_normalizeF, format_normalizeF, refv_normalizeF,
            items_normalizeF_succ, hit, normalizeNode_eq, normalizeNodeWith, ih m ts]

theorem mapType_normalizeF (m : Nat) (s : Schema) :
    mapType (normalizeF m s) = mapType s := by
  unfold mapType
  rw [size_normalizeF, mapTypeF_normalizeF]

theorem getHashProps_normalizeF (dig : String → String) (m : Nat) (s : Schema) :
    getHashProps dig (normalizeF m s).properties = getHashProps dig s.properties := by
  cases m with
  | zero => rfl
  | succ m =>
    rw [properties_normalizeF_succ]
    unfold getHashProps
    rw [sortByKey_idem, normalizeProps_eq_map, sortByKey_map,
      encodeEntriesWith_map (fun s2 => encodeSchemaF s2.size s2) (normalizeF m)
        (fun s2 =>
          show encodeSchemaF (normalizeF m s2).size (normalizeF m s2)
              = encodeSchemaF s2.size s2 by
            rw [size_normalizeF, encodeSchemaF_normalizeF])]

theorem generateEnumStruct_normalizeF (dig : String → String) (kind : String)
    (reg : Registry) (m : Nat) (prop : Schema) (fieldName : String)
    (field : FieldDef) (path : String) :
    generateEnumStruct dig kind reg (normalizeF m prop) fieldName field path =
      generateEnumStruct dig kind reg prop fieldName field path := by
  simp only [generateEnumStruct, generateEnum, getHashEnum, enum_normalizeF,
    mapType_normalizeF]

theorem generateStructPropertyG_normalizeF (dig : String → String)
    (recur : Registry → Schema → CustomResource → String → String → Bool →
      Option (Registry × CustomResource))
    (hrec : ∀ (m : Nat) (reg : Registry) (s : Schema) (cr : CustomResource)
      (n p : String) (r : Bool),
      recur reg (normalizeF m s) cr n p r = recur reg s cr n p r)
    (m : Nat) (reg : Registry) (cr : CustomResource) (prop : Schema)
    (fieldName path propName : String) (root : Bool) :
    generateStructPropertyG dig recur reg cr (normalizeF m prop) fieldName path propName root =
      generateStructPropertyG dig recur reg cr prop fieldName path propName root := by
  simp only [generateStructPropertyG, getHashProps_normalizeF, hrec]

theorem propStepA_normalizeF (dig : String → String)
    (recur : Registry → Schema → CustomResource → String → String → Bool →
      Option (Registry × CustomResource))
    (hrec : ∀ (m : Nat) (reg : Registry) (s : Schema) (cr : CustomResource)
      (n p : String) (r : Bool),
      recur reg (normalizeF m s) cr n p r = recur reg s cr n p r)
    (m : Nat) (reg : Registry) (cr : CustomResource) (prop : Schema)
    (fieldName path propName : String) (root : Bool) :
    propStepA dig recur reg cr (normalizeF m prop) fieldName path propName root =
      propStepA dig recur reg cr prop fieldName path propName root := by
  cases m with
  | zero => rfl
  | succ m =>
    cases hai : prop.addProps with
    | none =>
      cases hit : prop.items with
      | none =>
        simp only [propStepA, typ_normalizeF, refv_normalizeF,
          length_properties_normalizeF, addProps_normalizeF_succ,
          items_normalizeF_succ, hai, hit, normalizeNode_eq, normalizeNodeWith,
          mapType_normalizeF,
          generateStructPropertyG_normalizeF dig recur hrec]
      | some oi =>
        cases oi with
        | none =>
          simp only [propStepA, typ_normalizeF, refv_normalizeF,
            length_properties_normalizeF, addProps_normalizeF_succ,
            items_normalizeF_succ, hai, hit, normalizeNode_eq, normalizeNodeWith,
            mapType_normalizeF,
            generateStructPropertyG_normalizeF dig recur hrec]
        | some ts =>
          simp only [propStepA, typ_normalizeF, refv_normalizeF,
            length_properties_normalizeF, addProps_normalizeF_succ,
            items_normalizeF_succ, hai, hit, normalizeNode_eq, normalizeNodeWith,
            mapType_normalizeF,
            generateStructPropertyG_normalizeF dig recur hrec]
    | some oa =>
      cases oa with
      | none =>
        cases hit : prop.items with
        | none =>
          simp only [propStepA, typ_normalizeF, refv_normalizeF,
            length_properties_normalizeF, addProps_normalizeF_succ,
            items_normalizeF_succ, hai, hit, normalizeNode_eq, normalizeNodeWith,
            mapType_normalizeF,
            generateStructPropertyG_normalizeF dig recur hrec]
        | some oi =>
          cases oi with
          | none =>
            simp only [propStepA, typ_normalizeF, refv_normalizeF,
              length_properties_normalizeF, addProps_normalizeF_succ,
              items_normalizeF_succ, hai, hit, normalizeNode_eq, normalizeNodeWith,
              mapType_normalizeF,
              generateStructPropertyG_normalizeF dig recur hrec]
          | some ts =>
            simp only [propStepA, typ_normalizeF, refv_normalizeF,
              length_properties_normalizeF, addProps_normalizeF_succ,
              items_normalizeF_succ, hai, hit, normalizeNode_eq, normalizeNodeWith,
              mapType_normalizeF,
              generateStructPropertyG_normalizeF dig recur hrec]
      | some ta =>
        cases hit : prop.items with
        | none =>
          simp only [propStepA, typ_normalizeF, refv_normalizeF,
            length_properties_normalizeF, addProps_normalizeF_succ,
            items_normalizeF_succ, hai, hit, normalizeNode_eq, normalizeNodeWith,
            mapType_normalizeF,
            generateStructPropertyG_normalizeF dig recur hrec]
        | some oi =>
          cases oi with
          | none =>
            simp only [propStepA, typ_normalizeF, refv_normalizeF,
              length_properties_normalizeF, addProps_normalizeF_succ,
              items_normalizeF_succ, hai, hit, normalizeNode_eq, normalizeNodeWith,
              mapType_normalizeF,
              generateStructPropertyG_normalizeF dig recur hrec]
          | some ts =>
            simp only [propStepA, typ_normalizeF, refv_normalizeF,
              length_properties_normalizeF, addProps_normalizeF_succ,
              items_normalizeF_succ, hai, hit, normalizeNode_eq, normalizeNodeWith,
              mapType_normalizeF,
              generateStructPropertyG_normalizeF dig recur hrec]

theorem propStepB_normalizeF (dig : String → String) (kind : String)
    (reg1 : Registry) (m : Nat) (prop : Schema)
    (fieldName path ft0 : String) (field0 : FieldDef) :
    propStepB dig kind reg1 (normalizeF m prop) fieldName path ft0 field0 =
      propStepB dig kind reg1 prop fieldName path ft0 field0 := by
  cases m with
  | zero => rfl
  | succ m =>
    cases hit : prop.items with
    | none =>
      simp only [propStepB, items_normalizeF_succ, hit, normalizeNode_eq,
        normalizeNodeWith, enum_normalizeF, generateEnumStruct_normalizeF]
    | some oi =>
      cases oi with
      | none =>
        simp only [propStepB, items_normalizeF_succ, hit, normalizeNode_eq,
          normalizeNodeWith]
      | some ts =>
        simp only [propStepB, items_normalizeF_succ, hit, normalizeNode_eq,
          normalizeNodeWith, enum_normalizeF, generateEnumStruct_normalizeF]

theorem goProps_normalizeF (dig : String → String)
    (recur : Registry → Schema → CustomResource → String → String → Bool →
      Option (Registry × CustomResource))
    (hrec : ∀ (m : Nat) (reg : Registry) (s : Schema) (cr : CustomResource)
      (n p : String) (r : Bool),
      recur reg (normalizeF m s) cr n p r = recur reg s cr n p r)
    (m : Nat) :
    ∀ (l : List (String × Schema)) (reg : Registry) (cr : CustomResource)
      (path : String) (root : Bool),
      goProps dig recur reg cr path root (l.map (fun e => (e.1, normalizeF m e.2))) =
        goProps dig recur reg cr path root l := by
  intro l
  induction l with
  | nil => intro reg cr path root; rfl
  | cons a rest ih =>
    intro reg cr path root
    cases a with
    | mk propName prop =>
      show goProps dig recur reg cr path root
          ((propName, normalizeF m prop) :: rest.map (fun e => (e.1, normalizeF m e.2))) = _
      simp only [goProps, propStepA_normalizeF dig recur hrec, descr_normalizeF,
        propStepB_normalizeF, ih]

theorem generateStructsF_normalizeF (dig : String → String) :
    ∀ (fuel m : Nat) (reg : Registry) (s : Schema) (cr : CustomResource)
      (n p : String) (r : Bool),
      generateStructsF dig fuel reg (normalizeF m s) cr n p r =
        generateStructsF dig fuel reg s cr n p r := by
  intro fuel
  induction fuel with
  | zero => intro m reg s cr n p r; rfl
  | succ fuel ih =>
    intro m reg s cr n p r
    cases m with
    | zero => rfl
    | succ m =>
      have hprops : sortByKey (normalizeF (m + 1) s).properties =
          (sortByKey s.properties).map (fun e => (e.1, normalizeF m e.2)) := by
        rw [properties_normalizeF_succ, sortByKey_idem, normalizeProps_eq_map,
          sortByKey_map]
      simp only [generateStructsF, hprops,
        goProps_normalizeF dig (generateStructsF dig fuel)
          (fun m2 reg2 s2 cr2 n2 p2 r2 => ih m2 reg2 s2 cr2 n2 p2 r2) m]

theorem generateStructs_normalizeF (dig : String → String) (m : Nat)
    (reg : Registry) (s : Schema) (cr : CustomResource) (n p : String) (r : Bool) :
    generateStructs dig reg (normalizeF m s) cr n p r =
      generateStructs dig reg s cr n p r := by
  unfold generateStructs
  rw [size_normalizeF, generateStructsF_normalizeF]

/-- C4: two compilations that differ only in the iteration order of the map
holding object properties (content unchanged, at any nesting level, which is
exactly equality of recursively key-sorted normal forms) produce identical
type models — the same registry, struct names, field order and signatures —
and the content signature itself is independent of property order. -/
theorem C4_key_order_independence (dig : String → String) (reg : Registry)
    (s1 s2 : Schema) (cr : CustomResource) (n p : String) (r : Bool)
    (h : normalizeSchema s1 = normalizeSchema s2) :
    generateStructs dig reg s1 cr n p r = generateStructs dig reg s2 cr n p r ∧
      getHashProps dig s1.properties = getHashProps dig s2.properties := by
  constructor
  · calc generateStructs dig reg s1 cr n p r
        = generateStructs dig reg (normalizeSchema s1) cr n p r :=
          (generateStructs_normalizeF dig s1.size reg s1 cr n p r).symm
      _ = generateStructs dig reg (normalizeSchema s2) cr n p r := by rw [h]
      _ = generateStructs dig reg s2 cr n p r :=
          generateStructs_normalizeF dig s2.size reg s2 cr n p r
  · calc getHashProps dig s1.properties
        = getHashProps dig (normalizeSchema s1).properties :=
          (getHashProps_normalizeF dig s1.size s1).symm
      _ = getHashProps dig (normalizeSchema s2).properties := by rw [h]
      _ = getHashProps dig s2.properties := getHashProps_normalizeF dig s2.size s2

theorem C4_key_order_independence_witness :
    normalizeSchema schemaPermA = normalizeSchema schemaPermB ∧
      (generateStructs idDigest emptyRegistry schemaPermA witnessCR "Widget" "Widget" true =
          generateStructs idDigest emptyRegistry schemaPermB witnessCR "Widget" "Widget" true ∧
        getHashProps idDigest schemaPermA.properties =
          getHashProps idDigest schemaPermB.properties) :=
  ⟨rfl,
    C4_key_order_independence idDigest emptyRegistry schemaPermA schemaPermB
      witnessCR "Widget" "Widget" true rfl⟩
